import Mathlib

/-!
Verification of the rando-engine repository: a directed multigraph with stable
edge identifiers (petgraph `StableDiGraph` plus a `BiMap` from node identifiers
to internal indices), a completability analyzer based on strongly-connected
component condensation (`game_beatable` in src/graph.rs), an edge-swap
primitive (`swap_edges`, `OneWay`/`TwoWay` `Swappable` in src/game_world.rs)
and the randomized rewiring engine (`pick_random_edges`, `try_swap_edges`,
`build_game`).

Modelling choices, all following the source:
* `NodeID` is the opaque caller-supplied node identifier (a copyable, hashable,
  orderable value); it is represented as `Nat`.
* The `StableDiGraph` edge store is a list of slots, each holding either a live
  edge (its endpoint node indices) or nothing; removed slots are pushed on a
  free list and `add_edge` pops that list, which is petgraph's last-in
  first-out reuse of freed edge indices.  Node slots are never freed because
  the program never removes nodes.
* The `BiMap` is the list of (NodeID, node index) pairs in insertion order;
  `get_by_left` / `get_by_right` are the first matching entry.
* Rust panics (`unwrap`, `panic!`) are modelled by `Option`: a `none` result of
  an operation means the corresponding Rust code panicked.
* `StdRng` is modelled from the spec as an injected stream of uniform draws:
  a list of naturals consumed front to back (draws past the end read 0).
* petgraph's `condensation` and `externals` (library code) are realized by an
  executable strongly-connected-component computation over the edge list:
  bounded reachability iteration, canonical class representatives (least node
  index), and root detection; the diagnostic NodeID list is produced in node
  index order (petgraph's own enumeration order of condensed nodes is an
  unspecified SCC order; the claims about the payload are membership claims).
-/

abbrev NodeID := Nat

/-- Modelled from the spec: the injected seedable random source is a single
sequential stream of uniform draws; represented as the list of remaining
draws (an exhausted stream yields 0). -/
abbrev StdRng := List Nat

def next_draw : StdRng → Nat × StdRng
  | [] => (0, [])
  | k :: ks => (k, ks)

/-- One unbiased boolean draw (`rng.gen::<bool>()`). -/
def gen_bool (rng : StdRng) : Bool × StdRng :=
  let (k, rng') := next_draw rng
  (k % 2 == 1, rng')

/-- The single error kind of src/error.rs. -/
inductive Error where
  | GameUnbeatable : List NodeID → Error
deriving DecidableEq, Repr

instance {ε α : Type} [DecidableEq ε] [DecidableEq α] : DecidableEq (Except ε α) := by
  intro x y
  cases x with
  | error e1 =>
    cases y with
    | error e2 => exact decidable_of_iff (e1 = e2) (by simp)
    | ok a2 => exact Decidable.isFalse (by simp)
  | ok a1 =>
    cases y with
    | error e2 => exact Decidable.isFalse (by simp)
    | ok a2 => exact decidable_of_iff (a1 = a2) (by simp)

/-- The `GameGraph` of src/graph.rs: a petgraph `StableDiGraph<NodeID, ()>`
together with a `BiMap<NodeID, NodeIndex>`.  `nodes` is the dense node store
(slot `i` holds the NodeID of internal index `i`; nodes are never removed),
`nodeMap` is the BiMap as an insertion-ordered association list, `edges` is
the stable edge store (slot = `EdgeIndex`), and `freeEdges` is the LIFO free
list of vacated edge slots. -/
structure GameGraph where
  nodes : List NodeID
  nodeMap : List (NodeID × Nat)
  edges : List (Option (Nat × Nat))
  freeEdges : List Nat
deriving DecidableEq, Repr

/-- BiMap `get_by_left`: node index of a NodeID. -/
def lookup_by_left (m : List (NodeID × Nat)) (a : NodeID) : Option Nat :=
  (m.find? (fun p => p.1 == a)).map (fun p => p.2)

/-- BiMap `get_by_right`: NodeID of a node index. -/
def lookup_by_right (m : List (NodeID × Nat)) (i : Nat) : Option NodeID :=
  (m.find? (fun p => p.2 == i)).map (fun p => p.1)

/-- petgraph `StableDiGraph::add_edge` on internal node indices: reuse the
most recently freed edge slot if any (LIFO), else append a fresh slot. -/
def add_edge_idx (g : GameGraph) (a_idx b_idx : Nat) : GameGraph × Nat :=
  match g.freeEdges with
  | [] => ({ g with edges := g.edges ++ [some (a_idx, b_idx)] }, g.edges.length)
  | f :: rest =>
    ({ g with edges := g.edges.set f (some (a_idx, b_idx)), freeEdges := rest }, f)

/-- Source `ensure_end_exists_and_insert_edge`: make sure the target NodeID has
a node slot, then insert the edge. -/
def ensure_end_exists_and_insert_edge (a_idx : Nat) (b : NodeID) (g : GameGraph) :
    GameGraph × Nat :=
  match lookup_by_left g.nodeMap b with
  | some b_idx => add_edge_idx g a_idx b_idx
  | none =>
    let b_index := g.nodes.length
    add_edge_idx
      { g with nodes := g.nodes ++ [b], nodeMap := g.nodeMap ++ [(b, b_index)] }
      a_idx b_index

/-- Source `insert_edge`: implicit node creation for the source endpoint, then
`ensure_end_exists_and_insert_edge`. -/
def insert_edge (g : GameGraph) (a b : NodeID) : GameGraph × Nat :=
  match lookup_by_left g.nodeMap a with
  | some a_idx => ensure_end_exists_and_insert_edge a_idx b g
  | none =>
    let a_index := g.nodes.length
    ensure_end_exists_and_insert_edge a_index b
      { g with nodes := g.nodes ++ [a], nodeMap := g.nodeMap ++ [(a, a_index)] }

/-- Trait method `Graph::add_edge` for `GameGraph`. -/
def add_edge (g : GameGraph) (a b : NodeID) : GameGraph × Nat :=
  insert_edge g a b

/-- Trait method `Graph::remove_edge`: `none` models the absent case (Rust `None`). -/
def remove_edge (g : GameGraph) (e : Nat) : Option GameGraph :=
  match g.edges.getD e none with
  | none => none
  | some _ =>
    some { g with edges := g.edges.set e none, freeEdges := e :: g.freeEdges }

/-- Trait method `Graph::edge_endpoints`: current endpoints of a live edge as NodeIDs. -/
def edge_endpoints (g : GameGraph) (e : Nat) : Option (NodeID × NodeID) :=
  match g.edges.getD e none with
  | none => none
  | some (n1, n2) =>
    match lookup_by_right g.nodeMap n1, lookup_by_right g.nodeMap n2 with
    | some id1, some id2 => some (id1, id2)
    | _, _ => none

/-- Trait method `Graph::edge_count`. -/
def edge_count (g : GameGraph) : Nat :=
  (g.edges.filterMap id).length

/-- Trait method `Graph::from_edges`: build a graph from a sequence of NodeID pairs. -/
def from_edges (l : List (NodeID × NodeID)) : GameGraph :=
  l.foldl (fun g p => (insert_edge g p.1 p.2).1)
    { nodes := [], nodeMap := [], edges := [], freeEdges := [] }

/-! Completability analyzer (`game_beatable`).  The petgraph `condensation` /
`externals(Incoming)` library calls are realized executably: bounded-iteration
reachability over the live edge list, mutual reachability as the SCC relation,
and a node is a "root node" when its SCC has no incoming condensed edge. -/

/-- Live edges of the graph as (source index, target index) pairs. -/
def live_edges (g : GameGraph) : List (Nat × Nat) :=
  g.edges.filterMap id

def node_count (g : GameGraph) : Nat :=
  g.nodes.length

/-- Successor indices of `i` in the edge list. -/
def succ_list (es : List (Nat × Nat)) (i : Nat) : List Nat :=
  (es.filter (fun p => p.1 == i)).map (fun p => p.2)

/-- One closure step: keep the set and add all successors. -/
def step_set (es : List (Nat × Nat)) (s : List Nat) : List Nat :=
  (s ++ s.flatMap (succ_list es)).dedup

/-- Iterated closure from `i` with the given fuel. -/
def reach_list (es : List (Nat × Nat)) (i : Nat) : Nat → List Nat
  | 0 => [i]
  | Nat.succ f => step_set es (reach_list es i f)

/-- Executable reachability: fuel `node_count g` saturates the closure. -/
def reachable_b (g : GameGraph) (i j : Nat) : Bool :=
  (reach_list (live_edges g) i (node_count g)).contains j

/-- Mutual reachability: `i` and `j` lie in the same strongly-connected
component. -/
def same_scc (g : GameGraph) (i j : Nat) : Bool :=
  reachable_b g i j && reachable_b g j i

/-- Node `i` belongs to an SCC with no incoming condensed edge: every live
edge whose target is in the SCC of `i` has its source in that SCC too. -/
def is_root_node (g : GameGraph) (i : Nat) : Bool :=
  (live_edges g).all (fun p => !(same_scc g p.2 i) || same_scc g p.1 i)

/-- Canonical representative of the SCC of `i`: the least node index in it. -/
def scc_repr (g : GameGraph) (i : Nat) : Nat :=
  (((List.range (node_count g)).filter (fun j => same_scc g i j))).headD i

/-- The condensed nodes with no incoming condensed edge
(petgraph `externals(Direction::Incoming)` of the condensed graph), one
canonical representative per root SCC. -/
def condensed_roots (g : GameGraph) : List Nat :=
  (List.range (node_count g)).filter (fun i => scc_repr g i == i && is_root_node g i)

/-- The flattened diagnostic payload: the NodeIDs of all original nodes lying
in some root SCC, in node index order. -/
def root_scc_node_ids (g : GameGraph) : List NodeID :=
  ((List.range (node_count g)).filter (fun i => is_root_node g i)).filterMap
    (fun i => g.nodes.get? i)

/-- Trait method `Graph::game_beatable` of src/graph.rs: succeed iff the condensation has
exactly one node without incoming condensed edge; otherwise return
`GameUnbeatable` carrying the NodeIDs of all nodes of all root SCCs. -/
def game_beatable (g : GameGraph) : Except Error Unit :=
  if (condensed_roots g).length = 1 then
    Except.ok ()
  else
    Except.error (Error.GameUnbeatable (root_scc_node_ids g))

/-! The swap primitive and the `Swappable` connection kinds of
src/game_world.rs. -/

/-- Function `swap_edges` of src/game_world.rs: look up both endpoint pairs, remove both
edges (both removals before either insertion), then add (a, d) and (c, b) in
that order and return the new edge indices.  `none` models the `unwrap` /
panic paths. -/
def swap_edges (edge1 edge2 : Nat) (graph : GameGraph) :
    Option ((Nat × Nat) × GameGraph) :=
  match edge_endpoints graph edge1 with
  | none => none
  | some (edge1a, edge1b) =>
    match edge_endpoints graph edge2 with
    | none => none
    | some (edge2a, edge2b) =>
      match remove_edge graph edge1 with
      | none => none
      | some g1 =>
        match remove_edge g1 edge2 with
        | none => none
        | some g2 =>
          let r1 := add_edge g2 edge1a edge2b
          let r2 := add_edge r1.1 edge2a edge1b
          some ((r1.2, r2.2), r2.1)

/-- A single directed swappable passage (struct `OneWay`). -/
structure OneWay where
  idx : Nat
deriving DecidableEq, Repr

instance : Inhabited OneWay := ⟨⟨0⟩⟩

/-- A matched bidirectional passage pair (struct `TwoWay`). -/
structure TwoWay where
  idx1 : Nat
  idx2 : Nat
deriving DecidableEq, Repr

instance : Inhabited TwoWay := ⟨⟨0, 0⟩⟩

/-- The `Swappable` trait: exchange endpoints of two connections against the
graph, returning the pair of new connections. -/
class Swappable (T : Type) where
  swap : T → T → GameGraph → Option ((T × T) × GameGraph)

/-- Implementation of `Swappable` for `OneWay`. -/
def OneWay.swap (s other : OneWay) (g : GameGraph) :
    Option ((OneWay × OneWay) × GameGraph) :=
  match swap_edges s.idx other.idx g with
  | none => none
  | some ((e1, e2), g') => some ((⟨e1⟩, ⟨e2⟩), g')

/-- Implementation of `Swappable` for `TwoWay`: swap the two forward edges, then the two backward
edges, and cross-combine the four results. -/
def TwoWay.swap (s other : TwoWay) (g : GameGraph) :
    Option ((TwoWay × TwoWay) × GameGraph) :=
  match swap_edges s.idx1 other.idx1 g with
  | none => none
  | some ((e1, e2), g1) =>
    match swap_edges s.idx2 other.idx2 g1 with
    | none => none
    | some ((e3, e4), g2) => some ((⟨e1, e4⟩, ⟨e2, e3⟩), g2)

instance : Swappable OneWay := ⟨OneWay.swap⟩

instance : Swappable TwoWay := ⟨TwoWay.swap⟩

/-! The candidate pools (`LinkedHashSet`) and the engine. -/

/-- Pool operation `LinkedHashSet::insert`: append if absent (membership semantics; the
engine only ever inserts absent elements). -/
def lhs_insert {T : Type} [DecidableEq T] (pool : List T) (x : T) : List T :=
  if x ∈ pool then pool else pool ++ [x]

/-- Pool operation `LinkedHashSet::remove`: whether the element was present, and the pool
without it. -/
def lhs_remove {T : Type} [DecidableEq T] (pool : List T) (x : T) : Bool × List T :=
  (decide (x ∈ pool), pool.erase x)

/-- Modelled from the spec: `IteratorRandom::choose_multiple(rng, 2)` draws two
distinct members by a reservoir-style pass; abstracted as one draw selecting a
pair of distinct positions in the pool. -/
def pick_indices (k n : Nat) : Nat × Nat :=
  let i := k % n
  let j0 := (k / n) % (n - 1)
  if i ≤ j0 then (i, j0 + 1) else (i, j0)

/-- Function `pick_random_edges`: if the pool has at least two members, draw two
distinct members from it; otherwise no pair. -/
def pick_random_edges {T : Type} [Inhabited T] (pool : List T) (rng : StdRng) :
    Option (T × T) × StdRng :=
  if 2 ≤ pool.length then
    let (k, rng') := next_draw rng
    let ij := pick_indices k pool.length
    (some (pool.getD ij.1 default, pool.getD ij.2 default), rng')
  else
    (none, rng)

/-- Function `try_swap_edges`: pick two pool members, speculatively swap, validate with
the analyzer, then commit (update the pool) or roll back (swap the two new
connections again, pool untouched).  `none` models the panic paths. -/
def try_swap_edges {T : Type} [DecidableEq T] [Inhabited T] [Swappable T]
    (g : GameGraph) (pool : List T) (rng : StdRng) :
    Option (GameGraph × List T × StdRng) :=
  match pick_random_edges pool rng with
  | (none, rng') => some (g, pool, rng')
  | (some (edge1, edge2), rng') =>
    match Swappable.swap edge1 edge2 g with
    | none => none
    | some ((new_edge1, new_edge2), g1) =>
      match game_beatable g1 with
      | Except.error _ =>
        match Swappable.swap new_edge1 new_edge2 g1 with
        | none => none
        | some (_, g2) => some (g2, pool, rng')
      | Except.ok () =>
        match lhs_remove pool edge1 with
        | (false, _) => none
        | (true, pool1) =>
          match lhs_remove pool1 edge2 with
          | (false, _) => none
          | (true, pool2) =>
            some (g1, lhs_insert (lhs_insert pool2 new_edge1) new_edge2, rng')

/-- The `GameWorld`: graph plus the two candidate pools. -/
structure GameWorld where
  graph : GameGraph
  swappable_one_ways : List OneWay
  swappable_two_ways : List TwoWay
deriving DecidableEq, Repr

/-- The iteration loop of `build_game`: each iteration draws one boolean to
choose the pool, then runs `try_swap_edges` on it. -/
def build_loop (g : GameGraph) (ow : List OneWay) (tw : List TwoWay)
    (rng : StdRng) : Nat → Option (GameGraph × List OneWay × List TwoWay × StdRng)
  | 0 => some (g, ow, tw, rng)
  | Nat.succ n =>
    match gen_bool rng with
    | (true, rng') =>
      match try_swap_edges g ow rng' with
      | none => none
      | some (g', ow', rng'') => build_loop g' ow' tw rng'' n
    | (false, rng') =>
      match try_swap_edges g tw rng' with
      | none => none
      | some (g', tw', rng'') => build_loop g' ow tw' rng'' n

/-- Function `build_game` of src/game_world.rs: check the precondition, then run the
fixed number of iterations.  The outer `Option` models panics; the `Except`
is the source's `Result`. -/
def build_game (w : GameWorld) (rng : StdRng) (iterations : Nat) :
    Option (Except Error (GameWorld × StdRng)) :=
  match game_beatable w.graph with
  | Except.error e => some (Except.error e)
  | Except.ok () =>
    match build_loop w.graph w.swappable_one_ways w.swappable_two_ways rng iterations with
    | none => none
    | some (g, ow, tw, rng') => some (Except.ok (⟨g, ow, tw⟩, rng'))

/-! Well-formedness: the `BiMap` is exactly the inverse of the dense node
store, as maintained by every constructor of the source. -/

/-- The association list `m` pairs the elements of `ns` with consecutive
indices starting at `k`. -/
def map_matches : List (NodeID × Nat) → List NodeID → Nat → Bool
  | [], [], _ => true
  | (a, i) :: m, b :: ns, k => a == b && i == k && map_matches m ns (k + 1)
  | _, _, _ => false

/-- The node map invariant of a `GameGraph`: the BiMap is the inverse of the
node store and NodeIDs are not duplicated. -/
def MapWF (g : GameGraph) : Prop :=
  map_matches g.nodeMap g.nodes 0 = true ∧ g.nodes.Nodup

instance (g : GameGraph) : Decidable (MapWF g) := by
  unfold MapWF; infer_instance

/-! Observables used by the claims: per-node degrees, the reachability and
root-SCC properties the spec states, and the pool index invariant. -/

/-- Number of live edge slots whose source index is `i`. -/
def count_out : List (Option (Nat × Nat)) → Nat → Nat
  | [], _ => 0
  | none :: l, i => count_out l i
  | some p :: l, i => (if p.1 = i then 1 else 0) + count_out l i

/-- Number of live edge slots whose target index is `i`. -/
def count_in : List (Option (Nat × Nat)) → Nat → Nat
  | [], _ => 0
  | none :: l, i => count_in l i
  | some p :: l, i => (if p.2 = i then 1 else 0) + count_in l i

/-- Out-degree of the area identified by `v`. -/
def out_degree (g : GameGraph) (v : NodeID) : Nat :=
  match lookup_by_left g.nodeMap v with
  | some i => count_out g.edges i
  | none => 0

/-- In-degree of the area identified by `v`. -/
def in_degree (g : GameGraph) (v : NodeID) : Nat :=
  match lookup_by_left g.nodeMap v with
  | some i => count_in g.edges i
  | none => 0

/-- All edge indices mentioned by a TwoWay pool, in order. -/
def tw_flat (tw : List TwoWay) : List Nat :=
  tw.flatMap (fun t => [t.idx1, t.idx2])

/-- Specification-side reachability: the reflexive-transitive closure of the
edge relation. -/
inductive Reaches (es : List (Nat × Nat)) : Nat → Nat → Prop
  | refl (i : Nat) : Reaches es i i
  | tail {i j k : Nat} : Reaches es i j → (j, k) ∈ es → Reaches es i k

/-- Specification-side SCC relation: mutual reachability. -/
def SameSCC (es : List (Nat × Nat)) (i j : Nat) : Prop :=
  Reaches es i j ∧ Reaches es j i

/-- Specification-side statement that node index `i` lies in a root SCC: no
condensed edge enters the SCC of `i`. -/
def IsRootIdx (g : GameGraph) (i : Nat) : Prop :=
  i < node_count g ∧
    ∀ p ∈ live_edges g,
      SameSCC (live_edges g) p.2 i → SameSCC (live_edges g) p.1 i

/-- All live edges join existing node slots. -/
def EdgesOk (g : GameGraph) : Prop :=
  ∀ p ∈ live_edges g, p.1 < node_count g ∧ p.2 < node_count g

instance (g : GameGraph) : Decidable (EdgesOk g) := by
  unfold EdgesOk; infer_instance

example : (from_edges [(0, 1), (1, 2)]).nodes = [0, 1, 2] := by decide

example : edge_count (from_edges [(0, 1), (1, 2)]) = 2 := by decide

example : MapWF (from_edges [(0, 1), (1, 2)]) := by decide

example : game_beatable (from_edges [(0, 1), (1, 2)]) = Except.ok () := by rfl

example : game_beatable (from_edges []) =
    Except.error (Error.GameUnbeatable []) := by rfl

example : game_beatable (from_edges [(0, 1), (2, 1)]) =
    Except.error (Error.GameUnbeatable [0, 2]) := by rfl

/-! Basic list-slot lemmas. -/

theorem getD_none_some_lt {α : Type} {l : List (Option α)} {i : Nat} {x : α}
    (h : l.getD i none = some x) : i < l.length := by
  rw [List.getD_eq_getElem?_getD] at h
  by_contra hi
  rw [List.getElem?_eq_none (by omega)] at h
  simp at h

theorem getD_set_self {α : Type} {l : List α} {i : Nat} (x d : α)
    (h : i < l.length) : (l.set i x).getD i d = x := by
  rw [List.getD_eq_getElem?_getD, List.getElem?_set_self (by simpa using h)]
  rfl

theorem getD_set_of_ne {α : Type} {l : List α} {i j : Nat} (x d : α)
    (h : i ≠ j) : (l.set i x).getD j d = l.getD j d := by
  rw [List.getD_eq_getElem?_getD, List.getElem?_set_ne h, ← List.getD_eq_getElem?_getD]

theorem set_getD_eq_self {α : Type} :
    ∀ (l : List (Option α)) (i : Nat) (x : α),
      l.getD i none = some x → l.set i (some x) = l := by
  intro l
  induction l with
  | nil => intro i x h; simp [List.getD] at h
  | cons a l ih =>
    intro i x h
    cases i with
    | zero => simp [List.getD] at h; simp [h]
    | succ i =>
      rw [List.getD_cons_succ] at h
      simpa using ih i x h

theorem filterMap_id_length_set {α : Type} :
    ∀ (l : List (Option α)) (i : Nat) (x y : α),
      l.getD i none = some x →
      ((l.set i (some y)).filterMap id).length = (l.filterMap id).length := by
  intro l
  induction l with
  | nil => intro i x y h; simp [List.getD] at h
  | cons a l ih =>
    intro i x y h
    cases i with
    | zero => simp [List.getD] at h; simp [h]
    | succ i =>
      rw [List.getD_cons_succ] at h
      cases a with
      | none => simpa using ih i x y h
      | some z => simpa using ih i x y h

/-! BiMap lookup lemmas under `map_matches`. -/

theorem map_matches_lookup_right :
    ∀ (m : List (NodeID × Nat)) (ns : List NodeID) (k : Nat),
      map_matches m ns k = true →
      ∀ i : Nat, lookup_by_right m i = if k ≤ i then ns.get? (i - k) else none := by
  intro m
  induction m with
  | nil =>
    intro ns k h i
    cases ns with
    | nil => simp [lookup_by_right]
    | cons b ns' => simp [map_matches] at h
  | cons p m ih =>
    obtain ⟨a, i0⟩ := p
    intro ns k h i
    cases ns with
    | nil => simp [map_matches] at h
    | cons b ns' =>
      simp only [map_matches, Bool.and_eq_true, beq_iff_eq] at h
      obtain ⟨⟨rfl, rfl⟩, h3⟩ := h
      by_cases hik : i0 = i
      · subst hik
        simp [lookup_by_right, List.find?_cons, Nat.sub_self]
      · have hfind : lookup_by_right ((a, i0) :: m) i = lookup_by_right m i := by
          simp [lookup_by_right, List.find?_cons, hik]
        rw [hfind, ih ns' (i0 + 1) h3 i]
        rcases Nat.lt_or_ge i (i0 + 1) with hlt | hge
        · have h1 : ¬ (i0 + 1 ≤ i) := by omega
          have h2 : ¬ (i0 ≤ i) := by omega
          simp [h1, h2]
        · have h1 : i0 + 1 ≤ i := hge
          have h2 : i0 ≤ i := by omega
          obtain ⟨t, ht⟩ : ∃ t, i - i0 = t + 1 := ⟨i - i0 - 1, by omega⟩
          have ht' : i - (i0 + 1) = t := by omega
          simp only [h1, h2, if_true, ht, ht', List.get?_eq_getElem?,
            List.getElem?_cons_succ]

theorem lookup_right_eq {m : List (NodeID × Nat)} {ns : List NodeID}
    (h : map_matches m ns 0 = true) (i : Nat) :
    lookup_by_right m i = ns.get? i := by
  rw [map_matches_lookup_right m ns 0 h i]
  simp

theorem map_matches_lookup_left :
    ∀ (m : List (NodeID × Nat)) (ns : List NodeID) (k : Nat),
      map_matches m ns k = true → ns.Nodup →
      ∀ (j : Nat) (a : NodeID), ns.get? j = some a →
        lookup_by_left m a = some (k + j) := by
  intro m
  induction m with
  | nil =>
    intro ns k h _ j a hj
    cases ns with
    | nil => simp at hj
    | cons b ns' => simp [map_matches] at h
  | cons p m ih =>
    obtain ⟨a0, i0⟩ := p
    intro ns k h hnd j a hj
    cases ns with
    | nil => simp [map_matches] at h
    | cons b ns' =>
      simp only [map_matches, Bool.and_eq_true, beq_iff_eq] at h
      obtain ⟨⟨rfl, rfl⟩, h3⟩ := h
      rw [List.nodup_cons] at hnd
      cases j with
      | zero =>
        simp only [List.get?_eq_getElem?, List.getElem?_cons_zero,
          Option.some.injEq] at hj
        subst hj
        simp [lookup_by_left, List.find?_cons]
      | succ j =>
        simp only [List.get?_eq_getElem?, List.getElem?_cons_succ] at hj
        have hne : a0 ≠ a := by
          rintro rfl
          exact hnd.1 (by
            have := List.getElem?_eq_some.mp hj
            obtain ⟨hlt, he⟩ := this
            exact he ▸ List.getElem_mem hlt)
        have : lookup_by_left ((a0, i0) :: m) a = lookup_by_left m a := by
          simp [lookup_by_left, List.find?_cons, hne]
        rw [this, ih ns' (i0 + 1) h3 hnd.2 j a (by simpa using hj)]
        congr 1
        omega

theorem lookup_left_eq {m : List (NodeID × Nat)} {ns : List NodeID}
    (h : map_matches m ns 0 = true) (hnd : ns.Nodup) {j : Nat} {a : NodeID}
    (hj : ns.get? j = some a) : lookup_by_left m a = some j := by
  simpa using map_matches_lookup_left m ns 0 h hnd j a hj

/-! Characterization of `edge_endpoints` and `swap_edges` under the node-map
invariant. -/

theorem edge_endpoints_intro {g : GameGraph} {e ia ib : Nat} {a b : NodeID}
    (hm : map_matches g.nodeMap g.nodes 0 = true)
    (hge : g.edges.getD e none = some (ia, ib))
    (ha : g.nodes.get? ia = some a) (hb : g.nodes.get? ib = some b) :
    edge_endpoints g e = some (a, b) := by
  unfold edge_endpoints
  rw [hge]
  simp only [lookup_right_eq hm, ha, hb]

theorem edge_endpoints_elim {g : GameGraph} {e : Nat} {a b : NodeID}
    (hm : map_matches g.nodeMap g.nodes 0 = true)
    (h : edge_endpoints g e = some (a, b)) :
    ∃ ia ib, g.edges.getD e none = some (ia, ib) ∧
      g.nodes.get? ia = some a ∧ g.nodes.get? ib = some b := by
  unfold edge_endpoints at h
  cases hge : g.edges.getD e none with
  | none => rw [hge] at h; simp at h
  | some p =>
    obtain ⟨n1, n2⟩ := p
    rw [hge] at h
    simp only [lookup_right_eq hm] at h
    cases hn1 : g.nodes.get? n1 with
    | none => rw [hn1] at h; simp at h
    | some v1 =>
      cases hn2 : g.nodes.get? n2 with
      | none => rw [hn1, hn2] at h; simp at h
      | some v2 =>
        rw [hn1, hn2] at h
        simp only [Option.some.injEq, Prod.mk.injEq] at h
        exact ⟨n1, n2, rfl, by rw [hn1, h.1], by rw [hn2, h.2]⟩

theorem edge_endpoints_congr {g g' : GameGraph}
    (hmap : g'.nodeMap = g.nodeMap) (e : Nat)
    (hed : g'.edges.getD e none = g.edges.getD e none) :
    edge_endpoints g' e = edge_endpoints g e := by
  unfold edge_endpoints
  rw [hmap, hed]

theorem swap_edges_same (g : GameGraph) (e : Nat) : swap_edges e e g = none := by
  unfold swap_edges
  cases hep : edge_endpoints g e with
  | none => rfl
  | some p =>
    obtain ⟨a, b⟩ := p
    have hge : ∃ q, g.edges.getD e none = some q := by
      unfold edge_endpoints at hep
      cases hq : g.edges.getD e none with
      | none => rw [hq] at hep; simp at hep
      | some q => exact ⟨q, rfl⟩
    obtain ⟨q, hq⟩ := hge
    have h1 : remove_edge g e =
        some { g with edges := g.edges.set e none, freeEdges := e :: g.freeEdges } := by
      unfold remove_edge; rw [hq]
    have h2 : (g.edges.set e none).getD e none = none :=
      getD_set_self _ _ (getD_none_some_lt hq)
    have h3 : remove_edge
        { g with edges := g.edges.set e none, freeEdges := e :: g.freeEdges } e = none := by
      unfold remove_edge
      simp only [h2]
    simp only [h1, h3]

/-- The central lemma about the swap primitive: with both edges live and
distinct, `swap_edges` removes both slots, then refills them through the LIFO
free list, so the new (a, d) edge lands in `e2`'s slot and the new (c, b)
edge in `e1`'s slot; nodes, node map and free list are unchanged. -/
theorem swap_edges_eq (g : GameGraph) (e1 e2 ia ib ic id2 : Nat) (a b c d : NodeID)
    (hw : MapWF g)
    (he1 : g.edges.getD e1 none = some (ia, ib))
    (he2 : g.edges.getD e2 none = some (ic, id2))
    (ha : g.nodes.get? ia = some a) (hb : g.nodes.get? ib = some b)
    (hc : g.nodes.get? ic = some c) (hd : g.nodes.get? id2 = some d)
    (hne : e1 ≠ e2) :
    swap_edges e1 e2 g =
      some ((e2, e1),
        { g with edges := (g.edges.set e2 (some (ia, id2))).set e1 (some (ic, ib)) }) := by
  obtain ⟨hm, hn⟩ := hw
  have hep1 : edge_endpoints g e1 = some (a, b) := edge_endpoints_intro hm he1 ha hb
  have hep2 : edge_endpoints g e2 = some (c, d) := edge_endpoints_intro hm he2 hc hd
  have hla : lookup_by_left g.nodeMap a = some ia := lookup_left_eq hm hn ha
  have hlb : lookup_by_left g.nodeMap b = some ib := lookup_left_eq hm hn hb
  have hlc : lookup_by_left g.nodeMap c = some ic := lookup_left_eq hm hn hc
  have hld : lookup_by_left g.nodeMap d = some id2 := lookup_left_eq hm hn hd
  have hrm1 : remove_edge g e1 =
      some { g with edges := g.edges.set e1 none, freeEdges := e1 :: g.freeEdges } := by
    unfold remove_edge; rw [he1]
  have hg1e2 : (g.edges.set e1 none).getD e2 none = some (ic, id2) := by
    rw [getD_set_of_ne _ _ hne, he2]
  have hrm2 : remove_edge
      { g with edges := g.edges.set e1 none, freeEdges := e1 :: g.freeEdges } e2 =
      some { g with edges := (g.edges.set e1 none).set e2 none,
                    freeEdges := e2 :: e1 :: g.freeEdges } := by
    unfold remove_edge
    simp only [hg1e2]
  have hadd1 : add_edge
      { g with edges := (g.edges.set e1 none).set e2 none,
               freeEdges := e2 :: e1 :: g.freeEdges } a d =
      ({ g with edges := ((g.edges.set e1 none).set e2 none).set e2 (some (ia, id2)),
                freeEdges := e1 :: g.freeEdges }, e2) := by
    unfold add_edge insert_edge
    simp only [hla]
    unfold ensure_end_exists_and_insert_edge
    simp only [hld]
    unfold add_edge_idx
    rfl
  have hadd2 : add_edge
      { g with edges := ((g.edges.set e1 none).set e2 none).set e2 (some (ia, id2)),
               freeEdges := e1 :: g.freeEdges } c b =
      ({ g with edges := (((g.edges.set e1 none).set e2 none).set e2
                    (some (ia, id2))).set e1 (some (ic, ib)),
                freeEdges := g.freeEdges }, e1) := by
    unfold add_edge insert_edge
    simp only [hlc]
    unfold ensure_end_exists_and_insert_edge
    simp only [hlb]
    unfold add_edge_idx
    rfl
  have hlist : (((g.edges.set e1 none).set e2 none).set e2
      (some (ia, id2))).set e1 (some (ic, ib)) =
      (g.edges.set e2 (some (ia, id2))).set e1 (some (ic, ib)) := by
    rw [List.set_set]
    rw [List.set_comm _ _ _ hne]
    rw [List.set_set]
  unfold swap_edges
  simp only [hep1, hep2, hrm1, hrm2, hadd1, hadd2, hlist]

theorem swap_edges_some_inv {g : GameGraph} {e1 e2 : Nat}
    {r : (Nat × Nat) × GameGraph}
    (hw : MapWF g) (h : swap_edges e1 e2 g = some r) :
    ∃ ia ib ic id2 a b c d, e1 ≠ e2 ∧
      g.edges.getD e1 none = some (ia, ib) ∧
      g.edges.getD e2 none = some (ic, id2) ∧
      g.nodes.get? ia = some a ∧ g.nodes.get? ib = some b ∧
      g.nodes.get? ic = some c ∧ g.nodes.get? id2 = some d ∧
      r = ((e2, e1),
        { g with edges := (g.edges.set e2 (some (ia, id2))).set e1 (some (ic, ib)) }) := by
  by_cases hne : e1 = e2
  · rw [hne, swap_edges_same] at h; simp at h
  · cases hep1 : edge_endpoints g e1 with
    | none => unfold swap_edges at h; rw [hep1] at h; simp at h
    | some p1 =>
      obtain ⟨a, b⟩ := p1
      cases hep2 : edge_endpoints g e2 with
      | none => unfold swap_edges at h; rw [hep1, hep2] at h; simp at h
      | some p2 =>
        obtain ⟨c, d⟩ := p2
        obtain ⟨ia, ib, he1, ha, hb⟩ := edge_endpoints_elim hw.1 hep1
        obtain ⟨ic, id2, he2, hc, hd⟩ := edge_endpoints_elim hw.1 hep2
        have := swap_edges_eq g e1 e2 ia ib ic id2 a b c d hw he1 he2 ha hb hc hd hne
        rw [this] at h
        exact ⟨ia, ib, ic, id2, a, b, c, d, hne, he1, he2, ha, hb, hc, hd,
          by injection h with h'; exact h'.symm⟩

/-! Slot contents of the swapped edge store. -/

theorem getD_swapped_fst {E : List (Option (Nat × Nat))} {e1 e2 : Nat}
    (X Y : Option (Nat × Nat)) (hne : e1 ≠ e2) (hlt : e2 < E.length) :
    ((E.set e2 X).set e1 Y).getD e2 none = X := by
  rw [getD_set_of_ne _ _ hne, getD_set_self _ _ (by simpa using hlt)]

theorem getD_swapped_snd {E : List (Option (Nat × Nat))} {e1 e2 : Nat}
    (X Y : Option (Nat × Nat)) (hlt : e1 < E.length) :
    ((E.set e2 X).set e1 Y).getD e1 none = Y := by
  rw [getD_set_self _ _ (by simpa using hlt)]

theorem getD_swapped_other {E : List (Option (Nat × Nat))} {e1 e2 e : Nat}
    (X Y : Option (Nat × Nat)) (h1 : e1 ≠ e) (h2 : e2 ≠ e) :
    ((E.set e2 X).set e1 Y).getD e none = E.getD e none := by
  rw [getD_set_of_ne _ _ h1, getD_set_of_ne _ _ h2]

theorem edge_count_swapped {g : GameGraph} {e1 e2 ia ib ic id2 : Nat}
    (he1 : g.edges.getD e1 none = some (ia, ib))
    (he2 : g.edges.getD e2 none = some (ic, id2))
    (hne : e1 ≠ e2) (X Y : Nat × Nat) :
    edge_count { g with edges := (g.edges.set e2 (some X)).set e1 (some Y) } =
      edge_count g := by
  unfold edge_count
  have h2 : (g.edges.set e2 (some X)).getD e1 none = some (ia, ib) := by
    rw [getD_set_of_ne _ _ (Ne.symm hne), he1]
  calc (((g.edges.set e2 (some X)).set e1 (some Y)).filterMap id).length
      = ((g.edges.set e2 (some X)).filterMap id).length :=
        filterMap_id_length_set _ e1 _ _ h2
    _ = (g.edges.filterMap id).length := filterMap_id_length_set _ e2 _ _ he2

/-- Rolling the swap back: swapping the two new edges restores the graph
exactly, slots, free list and all, and hands back the original edge indices. -/
theorem swap_edges_rollback (g : GameGraph) (e1 e2 ia ib ic id2 : Nat)
    (a b c d : NodeID) (hw : MapWF g)
    (he1 : g.edges.getD e1 none = some (ia, ib))
    (he2 : g.edges.getD e2 none = some (ic, id2))
    (ha : g.nodes.get? ia = some a) (hb : g.nodes.get? ib = some b)
    (hc : g.nodes.get? ic = some c) (hd : g.nodes.get? id2 = some d)
    (hne : e1 ≠ e2) :
    swap_edges e2 e1
      { g with edges := (g.edges.set e2 (some (ia, id2))).set e1 (some (ic, ib)) } =
      some ((e1, e2), g) := by
  have hlt1 : e1 < g.edges.length := getD_none_some_lt he1
  have hlt2 : e2 < g.edges.length := getD_none_some_lt he2
  have hg'e2 : ((g.edges.set e2 (some (ia, id2))).set e1 (some (ic, ib))).getD e2 none =
      some (ia, id2) := getD_swapped_fst _ _ hne hlt2
  have hg'e1 : ((g.edges.set e2 (some (ia, id2))).set e1 (some (ic, ib))).getD e1 none =
      some (ic, ib) := getD_swapped_snd _ _ hlt1
  have h := swap_edges_eq
    { g with edges := (g.edges.set e2 (some (ia, id2))).set e1 (some (ic, ib)) }
    e2 e1 ia id2 ic ib a d c b hw hg'e2 hg'e1 ha hd hc hb (Ne.symm hne)
  rw [h]
  have hlist : ((((g.edges.set e2 (some (ia, id2))).set e1 (some (ic, ib))).set e1
      (some (ia, ib))).set e2 (some (ic, id2))) = g.edges := by
    rw [List.set_set]
    rw [List.set_comm _ _ _ hne]
    rw [List.set_set]
    rw [set_getD_eq_self _ _ _ he2]
    rw [set_getD_eq_self _ _ _ he1]
  rw [hlist]

/-- Characterization of the TwoWay exchange: the forward swap then the
backward swap, with the four resulting edge indices cross-combined. -/
theorem twoway_swap_eq (g : GameGraph) (x y : TwoWay)
    (p1a p1b p2a p2b q1a q1b q2a q2b : Nat) (a b c d u v w z : NodeID)
    (hw : MapWF g)
    (hf1 : g.edges.getD x.idx1 none = some (p1a, p1b))
    (hf2 : g.edges.getD y.idx1 none = some (p2a, p2b))
    (hb1 : g.edges.getD x.idx2 none = some (q1a, q1b))
    (hb2 : g.edges.getD y.idx2 none = some (q2a, q2b))
    (ga : g.nodes.get? p1a = some a) (gb : g.nodes.get? p1b = some b)
    (gc : g.nodes.get? p2a = some c) (gd : g.nodes.get? p2b = some d)
    (gu : g.nodes.get? q1a = some u) (gv : g.nodes.get? q1b = some v)
    (gw : g.nodes.get? q2a = some w) (gz : g.nodes.get? q2b = some z)
    (h12 : x.idx1 ≠ y.idx1) (h34 : x.idx2 ≠ y.idx2)
    (h31 : x.idx2 ≠ x.idx1) (h32 : x.idx2 ≠ y.idx1)
    (h41 : y.idx2 ≠ x.idx1) (h42 : y.idx2 ≠ y.idx1) :
    TwoWay.swap x y g =
      some ((⟨y.idx1, x.idx2⟩, ⟨x.idx1, y.idx2⟩),
        { g with edges :=
            ((((g.edges.set y.idx1 (some (p1a, p2b))).set x.idx1
                (some (p2a, p1b))).set y.idx2 (some (q1a, q2b))).set x.idx2
              (some (q2a, q1b))) }) := by
  have hs1 := swap_edges_eq g x.idx1 y.idx1 p1a p1b p2a p2b a b c d hw
    hf1 hf2 ga gb gc gd h12
  have hg1b1 : ((g.edges.set y.idx1 (some (p1a, p2b))).set x.idx1
      (some (p2a, p1b))).getD x.idx2 none = some (q1a, q1b) := by
    rw [getD_swapped_other _ _ (Ne.symm h31) (Ne.symm h32), hb1]
  have hg1b2 : ((g.edges.set y.idx1 (some (p1a, p2b))).set x.idx1
      (some (p2a, p1b))).getD y.idx2 none = some (q2a, q2b) := by
    rw [getD_swapped_other _ _ (Ne.symm h41) (Ne.symm h42), hb2]
  have hs2 := swap_edges_eq
    { g with
      edges := (g.edges.set y.idx1 (some (p1a, p2b))).set x.idx1 (some (p2a, p1b)) }
    x.idx2 y.idx2 q1a q1b q2a q2b u v w z hw hg1b1 hg1b2 gu gv gw gz h34
  unfold TwoWay.swap
  simp only [hs1, hs2]

theorem list_ext_of_getD {α : Type} {l1 l2 : List (Option α)}
    (hlen : l1.length = l2.length)
    (h : ∀ i, l1.getD i none = l2.getD i none) : l1 = l2 := by
  apply List.ext_getElem?
  intro i
  by_cases hi : i < l1.length
  · rw [List.getElem?_eq_getElem hi, List.getElem?_eq_getElem (hlen ▸ hi)]
    have hh := h i
    rw [List.getD_eq_getElem?_getD, List.getD_eq_getElem?_getD,
      List.getElem?_eq_getElem hi, List.getElem?_eq_getElem (hlen ▸ hi)] at hh
    simpa using hh
  · rw [List.getElem?_eq_none (by omega), List.getElem?_eq_none (by omega)]

/-- Rolling back a TwoWay exchange: swapping the two new TwoWay connections
restores the graph exactly and returns the two original TwoWay values. -/
theorem twoway_swap_rollback (g : GameGraph) (x y : TwoWay)
    (p1a p1b p2a p2b q1a q1b q2a q2b : Nat) (a b c d u v w z : NodeID)
    (hw : MapWF g)
    (hf1 : g.edges.getD x.idx1 none = some (p1a, p1b))
    (hf2 : g.edges.getD y.idx1 none = some (p2a, p2b))
    (hb1 : g.edges.getD x.idx2 none = some (q1a, q1b))
    (hb2 : g.edges.getD y.idx2 none = some (q2a, q2b))
    (ga : g.nodes.get? p1a = some a) (gb : g.nodes.get? p1b = some b)
    (gc : g.nodes.get? p2a = some c) (gd : g.nodes.get? p2b = some d)
    (gu : g.nodes.get? q1a = some u) (gv : g.nodes.get? q1b = some v)
    (gw : g.nodes.get? q2a = some w) (gz : g.nodes.get? q2b = some z)
    (h12 : x.idx1 ≠ y.idx1) (h34 : x.idx2 ≠ y.idx2)
    (h31 : x.idx2 ≠ x.idx1) (h32 : x.idx2 ≠ y.idx1)
    (h41 : y.idx2 ≠ x.idx1) (h42 : y.idx2 ≠ y.idx1) :
    TwoWay.swap ⟨y.idx1, x.idx2⟩ ⟨x.idx1, y.idx2⟩
      { g with edges :=
          ((((g.edges.set y.idx1 (some (p1a, p2b))).set x.idx1
              (some (p2a, p1b))).set y.idx2 (some (q1a, q2b))).set x.idx2
            (some (q2a, q1b))) } = some ((x, y), g) := by
  have hl1 : x.idx1 < g.edges.length := getD_none_some_lt hf1
  have hl2 : y.idx1 < g.edges.length := getD_none_some_lt hf2
  have hl3 : x.idx2 < g.edges.length := getD_none_some_lt hb1
  have hl4 : y.idx2 < g.edges.length := getD_none_some_lt hb2
  set E := g.edges with hE
  set E4 := (((E.set y.idx1 (some (p1a, p2b))).set x.idx1
      (some (p2a, p1b))).set y.idx2 (some (q1a, q2b))).set x.idx2
      (some (q2a, q1b)) with hE4
  have hE4len : E4.length = E.length := by
    simp [hE4, List.length_set]
  -- slot contents of E4
  have h4s2 : E4.getD y.idx1 none = some (p1a, p2b) := by
    rw [hE4, getD_set_of_ne _ _ h32, getD_set_of_ne _ _ h42,
      getD_set_of_ne _ _ h12, getD_set_self _ _ hl2]
  have h4s1 : E4.getD x.idx1 none = some (p2a, p1b) := by
    rw [hE4, getD_set_of_ne _ _ h31, getD_set_of_ne _ _ h41,
      getD_set_self _ _ (by simpa [List.length_set] using hl1)]
  have hswap1 := swap_edges_eq { g with edges := E4 } y.idx1 x.idx1
    p1a p2b p2a p1b a d c b hw h4s2 h4s1 ga gd gc gb (Ne.symm h12)
  set E5 := (E4.set x.idx1 (some (p1a, p1b))).set y.idx1 (some (p2a, p2b)) with hE5
  have h5s3 : E5.getD x.idx2 none = some (q2a, q1b) := by
    rw [hE5, getD_set_of_ne _ _ (Ne.symm h32), getD_set_of_ne _ _ (Ne.symm h31),
      hE4, getD_set_self _ _ (by simpa [List.length_set] using hl3)]
  have h5s4 : E5.getD y.idx2 none = some (q1a, q2b) := by
    rw [hE5, getD_set_of_ne _ _ (Ne.symm h42), getD_set_of_ne _ _ (Ne.symm h41),
      hE4, getD_set_of_ne _ _ h34,
      getD_set_self _ _ (by simpa [List.length_set] using hl4)]
  have hswap2 := swap_edges_eq { g with edges := E5 } x.idx2 y.idx2
    q2a q1b q1a q2b w v u z hw h5s3 h5s4 gw gv gu gz h34
  set E6 := (E5.set y.idx2 (some (q2a, q2b))).set x.idx2 (some (q1a, q1b)) with hE6
  have hE6 : E6 = E := by
    apply list_ext_of_getD
    · simp [hE6, hE5, hE4, List.length_set]
    · intro i
      by_cases hi3 : i = x.idx2
      · subst hi3
        rw [hE6, getD_set_self _ _ (by simpa [hE5, hE4, List.length_set] using hl3),
          hb1]
      · by_cases hi4 : i = y.idx2
        · subst hi4
          rw [hE6, getD_set_of_ne _ _ (fun hh => hi3 hh.symm),
            getD_set_self _ _ (by simpa [hE5, hE4, List.length_set] using hl4), hb2]
        · by_cases hi2 : i = y.idx1
          · subst hi2
            rw [hE6, getD_set_of_ne _ _ (fun hh => hi3 hh.symm),
              getD_set_of_ne _ _ (fun hh => hi4 hh.symm), hE5,
              getD_set_self _ _ (by simpa [hE4, List.length_set] using hl2), hf2]
          · by_cases hi1 : i = x.idx1
            · subst hi1
              rw [hE6, getD_set_of_ne _ _ (fun hh => hi3 hh.symm),
                getD_set_of_ne _ _ (fun hh => hi4 hh.symm), hE5,
                getD_set_of_ne _ _ (fun hh => hi2 hh.symm),
                getD_set_self _ _ (by simpa [hE4, List.length_set] using hl1), hf1]
            · rw [hE6, getD_set_of_ne _ _ (fun hh => hi3 hh.symm),
                getD_set_of_ne _ _ (fun hh => hi4 hh.symm), hE5,
                getD_set_of_ne _ _ (fun hh => hi2 hh.symm),
                getD_set_of_ne _ _ (fun hh => hi1 hh.symm), hE4,
                getD_set_of_ne _ _ (fun hh => hi3 hh.symm),
                getD_set_of_ne _ _ (fun hh => hi4 hh.symm),
                getD_set_of_ne _ _ (fun hh => hi1 hh.symm),
                getD_set_of_ne _ _ (fun hh => hi2 hh.symm)]
  unfold TwoWay.swap
  simp only [hswap1]
  simp only [hswap2]
  rw [hE6]

/-! The random pick. -/

theorem pick_indices_spec {k n : Nat} (hn : 2 ≤ n) :
    (pick_indices k n).1 < n ∧ (pick_indices k n).2 < n ∧
      (pick_indices k n).1 ≠ (pick_indices k n).2 := by
  unfold pick_indices
  have hi : k % n < n := Nat.mod_lt _ (by omega)
  have hj : (k / n) % (n - 1) < n - 1 := Nat.mod_lt _ (by omega)
  by_cases h : k % n ≤ (k / n) % (n - 1) <;> simp only [h, if_true, if_false] <;>
    constructor <;> try constructor
  all_goals omega

theorem pick_random_edges_low {T : Type} [Inhabited T] {pool : List T}
    (rng : StdRng) (h : pool.length < 2) :
    pick_random_edges pool rng = (none, rng) := by
  unfold pick_random_edges
  rw [if_neg (by omega)]

theorem pick_random_edges_some_inv {T : Type} [Inhabited T] {pool : List T}
    {rng rng' : StdRng} {x y : T}
    (h : pick_random_edges pool rng = (some (x, y), rng')) :
    2 ≤ pool.length ∧ rng' = (next_draw rng).2 ∧
      ∃ i j, i < pool.length ∧ j < pool.length ∧ i ≠ j ∧
        x = pool.getD i default ∧ y = pool.getD j default := by
  unfold pick_random_edges at h
  by_cases hlen : 2 ≤ pool.length
  · rw [if_pos hlen] at h
    rcases hnd : next_draw rng with ⟨k, r⟩
    rw [hnd] at h
    simp only at h
    rw [Prod.mk.injEq] at h
    obtain ⟨h1, h2⟩ := h
    rw [Option.some.injEq, Prod.mk.injEq] at h1
    obtain ⟨hx, hy⟩ := h1
    obtain ⟨hsi, hsj, hsne⟩ := pick_indices_spec (k := k) hlen
    exact ⟨hlen, h2.symm,
      (pick_indices k pool.length).1, (pick_indices k pool.length).2,
      hsi, hsj, hsne, hx.symm, hy.symm⟩
  · rw [if_neg hlen] at h
    simp at h

theorem getD_mem {T : Type} [Inhabited T] {pool : List T} {i : Nat}
    (h : i < pool.length) : pool.getD i default ∈ pool := by
  have he : pool.getD i default = pool[i] := by
    rw [List.getD_eq_getElem?_getD, List.getElem?_eq_getElem h]
    rfl
  rw [he]
  exact List.getElem_mem h

theorem getD_ne_of_nodup {T : Type} [Inhabited T] {pool : List T} {i j : Nat}
    (hn : pool.Nodup) (hi : i < pool.length) (hj : j < pool.length) (hij : i ≠ j) :
    pool.getD i default ≠ pool.getD j default := by
  have hei : pool.getD i default = pool[i] := by
    rw [List.getD_eq_getElem?_getD, List.getElem?_eq_getElem hi]; rfl
  have hej : pool.getD j default = pool[j] := by
    rw [List.getD_eq_getElem?_getD, List.getElem?_eq_getElem hj]; rfl
  rw [hei, hej]
  intro hcontra
  exact hij ((hn.getElem_inj_iff).mp hcontra)

/-! The `Swappable` instances and the engine iteration. -/

theorem swappable_oneway_eq : (Swappable.swap : OneWay → OneWay → GameGraph →
    Option ((OneWay × OneWay) × GameGraph)) = OneWay.swap := rfl

theorem swappable_twoway_eq : (Swappable.swap : TwoWay → TwoWay → GameGraph →
    Option ((TwoWay × TwoWay) × GameGraph)) = TwoWay.swap := rfl

theorem oneway_swap_some_inv {g g1 : GameGraph} {x y n1 n2 : OneWay}
    (hw : MapWF g) (h : OneWay.swap x y g = some ((n1, n2), g1)) :
    ∃ ia ib ic id2 a b c d, x.idx ≠ y.idx ∧
      g.edges.getD x.idx none = some (ia, ib) ∧
      g.edges.getD y.idx none = some (ic, id2) ∧
      g.nodes.get? ia = some a ∧ g.nodes.get? ib = some b ∧
      g.nodes.get? ic = some c ∧ g.nodes.get? id2 = some d ∧
      n1 = ⟨y.idx⟩ ∧ n2 = ⟨x.idx⟩ ∧
      g1 = { g with edges :=
        (g.edges.set y.idx (some (ia, id2))).set x.idx (some (ic, ib)) } := by
  unfold OneWay.swap at h
  cases hs : swap_edges x.idx y.idx g with
  | none => rw [hs] at h; simp at h
  | some r =>
    rw [hs] at h
    obtain ⟨ia, ib, ic, id2, a, b, c, d, hne, he1, he2, ha, hb, hc, hd, hr⟩ :=
      swap_edges_some_inv hw hs
    subst hr
    simp only [Option.some.injEq, Prod.mk.injEq] at h
    obtain ⟨⟨hn1, hn2⟩, hg1⟩ := h
    exact ⟨ia, ib, ic, id2, a, b, c, d, hne, he1, he2, ha, hb, hc, hd,
      hn1.symm, hn2.symm, hg1.symm⟩

/-- Case analysis of one engine iteration on a pool. -/
theorem try_swap_edges_cases {T : Type} [DecidableEq T] [Inhabited T] [Swappable T]
    {g : GameGraph} {pool : List T} {rng : StdRng}
    {out : GameGraph × List T × StdRng}
    (h : try_swap_edges g pool rng = some out) :
    (∃ rng1, pick_random_edges pool rng = (none, rng1) ∧ out = (g, pool, rng1)) ∨
    (∃ x y rng1 n1 n2 g1,
      pick_random_edges pool rng = (some (x, y), rng1) ∧
      Swappable.swap x y g = some ((n1, n2), g1) ∧
      ((∃ err p g2, game_beatable g1 = Except.error err ∧
          Swappable.swap n1 n2 g1 = some (p, g2) ∧ out = (g2, pool, rng1)) ∨
        (game_beatable g1 = Except.ok () ∧ x ∈ pool ∧ y ∈ pool.erase x ∧
          out = (g1, lhs_insert (lhs_insert ((pool.erase x).erase y) n1) n2, rng1)))) := by
  unfold try_swap_edges at h
  rcases hp : pick_random_edges pool rng with ⟨o, rng1⟩
  rw [hp] at h
  cases o with
  | none =>
    left
    simp only [Option.some.injEq] at h
    exact ⟨rng1, rfl, h.symm⟩
  | some xy =>
    right
    obtain ⟨x, y⟩ := xy
    simp only at h
    refine ⟨x, y, rng1, ?_⟩
    cases hs : Swappable.swap x y g with
    | none => rw [hs] at h; simp at h
    | some r1 =>
      obtain ⟨⟨n1, n2⟩, g1⟩ := r1
      rw [hs] at h
      simp only at h
      refine ⟨n1, n2, g1, rfl, rfl, ?_⟩
      cases hb : game_beatable g1 with
      | error err =>
        rw [hb] at h
        simp only at h
        left
        cases hs2 : Swappable.swap n1 n2 g1 with
        | none => rw [hs2] at h; simp at h
        | some r2 =>
          obtain ⟨p, g2⟩ := r2
          rw [hs2] at h
          simp only [Option.some.injEq] at h
          exact ⟨err, p, g2, rfl, rfl, h.symm⟩
      | ok u =>
        obtain ⟨⟩ := u
        rw [hb] at h
        simp only at h
        right
        by_cases hx : x ∈ pool
        · have hr1 : lhs_remove pool x = (true, pool.erase x) := by
            simp [lhs_remove, hx]
          rw [hr1] at h
          simp only at h
          by_cases hy : y ∈ pool.erase x
          · have hr2 : lhs_remove (pool.erase x) y = (true, (pool.erase x).erase y) := by
              simp [lhs_remove, hy]
            rw [hr2] at h
            simp only [Option.some.injEq] at h
            exact ⟨rfl, hx, hy, h.symm⟩
          · have hr2 : lhs_remove (pool.erase x) y = (false, (pool.erase x).erase y) := by
              simp [lhs_remove, hy]
            rw [hr2] at h
            simp at h
        · have hr1 : lhs_remove pool x = (false, pool.erase x) := by
            simp [lhs_remove, hx]
          rw [hr1] at h
          simp at h

theorem oneway_eta (x : OneWay) : (⟨x.idx⟩ : OneWay) = x := rfl

theorem oneway_ne_of_idx_ne {x y : OneWay} (h : x.idx ≠ y.idx) : x ≠ y := by
  intro hc; exact h (congrArg OneWay.idx hc)

/-- A failed speculative OneWay swap is rolled back exactly: the iteration
returns the untouched graph and pool. -/
theorem try_swap_rollback_ow {g g1 : GameGraph} {pool : List OneWay}
    {rng rng1 : StdRng} {x y n1 n2 : OneWay} {err : Error}
    (hw : MapWF g)
    (hpick : pick_random_edges pool rng = (some (x, y), rng1))
    (hswap : OneWay.swap x y g = some ((n1, n2), g1))
    (hbad : game_beatable g1 = Except.error err) :
    try_swap_edges g pool rng = some (g, pool, rng1) := by
  obtain ⟨ia, ib, ic, id2, a, b, c, d, hne, he1, he2, ha, hb, hc, hd, hn1, hn2, hg1⟩ :=
    oneway_swap_some_inv hw hswap
  have hback : OneWay.swap n1 n2 g1 = some ((⟨x.idx⟩, ⟨y.idx⟩), g) := by
    subst hn1 hn2 hg1
    unfold OneWay.swap
    have hr := swap_edges_rollback g x.idx y.idx ia ib ic id2 a b c d hw
      he1 he2 ha hb hc hd hne
    simp only [hr]
  unfold try_swap_edges
  rw [hpick]
  simp only [swappable_oneway_eq, hswap, hbad, hback]

/-- One successful engine iteration on the OneWay pool preserves the node-map
invariant, completability, the edge count, pool distinctness and the pool
cardinality. -/
theorem try_swap_ow_step {g g' : GameGraph} {pool pool' : List OneWay}
    {rng rng' : StdRng}
    (hw : MapWF g) (hnd : pool.Nodup) (hbeat : game_beatable g = Except.ok ())
    (h : try_swap_edges g pool rng = some (g', pool', rng')) :
    MapWF g' ∧ game_beatable g' = Except.ok () ∧ edge_count g' = edge_count g ∧
      pool'.Nodup ∧ pool'.length = pool.length := by
  rcases try_swap_edges_cases h with ⟨rng1, hpick, hout⟩ |
    ⟨x, y, rng1, n1, n2, g1, hpick, hswap, hrest⟩
  · simp only [Prod.mk.injEq] at hout
    obtain ⟨hg, hp, -⟩ := hout
    subst hg; subst hp
    exact ⟨hw, hbeat, rfl, hnd, rfl⟩
  · rw [swappable_oneway_eq] at hswap
    obtain ⟨ia, ib, ic, id2, a, b, c, d, hne, he1, he2, ha, hb, hc, hd, hn1, hn2, hg1⟩ :=
      oneway_swap_some_inv hw hswap
    have hlen2 : 2 ≤ pool.length := (pick_random_edges_some_inv hpick).1
    rcases hrest with ⟨err, p, g2, hbad, hsw2, hout⟩ | ⟨hok, hx, hy, hout⟩
    · -- rollback: the second swap restores g exactly
      have hback : OneWay.swap n1 n2 g1 = some ((⟨x.idx⟩, ⟨y.idx⟩), g) := by
        subst hn1 hn2 hg1
        unfold OneWay.swap
        have hr := swap_edges_rollback g x.idx y.idx ia ib ic id2 a b c d hw
          he1 he2 ha hb hc hd hne
        simp only [hr]
      rw [swappable_oneway_eq, hback] at hsw2
      simp only [Option.some.injEq, Prod.mk.injEq] at hsw2
      obtain ⟨-, hg2⟩ := hsw2
      subst hg2
      simp only [Prod.mk.injEq] at hout
      obtain ⟨hg, hp, -⟩ := hout
      subst hg; subst hp
      exact ⟨hw, hbeat, rfl, hnd, rfl⟩
    · -- commit: the two new connections reuse the two old edge indices
      have hxny : x ≠ y := oneway_ne_of_idx_ne hne
      have hnd1 : (pool.erase x).Nodup := hnd.erase x
      have hnd2 : ((pool.erase x).erase y).Nodup := hnd1.erase y
      have hyni : y ∉ (pool.erase x).erase y := by
        intro hcon
        exact ((hnd1.mem_erase_iff).mp hcon).1 rfl
      have hxni : x ∉ (pool.erase x).erase y := by
        intro hcon
        have hx1 : x ∈ pool.erase x := List.mem_of_mem_erase hcon
        exact ((hnd.mem_erase_iff).mp hx1).1 rfl
      have hi1 : lhs_insert ((pool.erase x).erase y) n1 =
          ((pool.erase x).erase y) ++ [y] := by
        rw [hn1, oneway_eta]
        unfold lhs_insert
        rw [if_neg hyni]
      have hxni2 : x ∉ ((pool.erase x).erase y) ++ [y] := by
        intro hcon
        rcases List.mem_append.mp hcon with hcon1 | hcon2
        · exact hxni hcon1
        · exact hxny (List.mem_singleton.mp hcon2)
      have hi2 : lhs_insert (((pool.erase x).erase y) ++ [y]) n2 =
          (((pool.erase x).erase y) ++ [y]) ++ [x] := by
        rw [hn2, oneway_eta]
        unfold lhs_insert
        rw [if_neg hxni2]
      subst hg1
      simp only [hi1, hi2, Prod.mk.injEq] at hout
      obtain ⟨hg, hp, -⟩ := hout
      subst hg; subst hp
      refine ⟨hw, hok, edge_count_swapped he1 he2 hne _ _, ?_, ?_⟩
      · rw [List.nodup_append]
        refine ⟨?_, by simp, ?_⟩
        · rw [List.nodup_append]
          refine ⟨hnd2, by simp, ?_⟩
          intro t ht1 ht2
          rw [List.mem_singleton.mp ht2] at ht1
          exact hyni ht1
        · intro t ht1 ht2
          rw [List.mem_singleton.mp ht2] at ht1
          exact hxni2 ht1
      · have l1 : (pool.erase x).length = pool.length - 1 :=
          List.length_erase_of_mem hx
        have l2 : ((pool.erase x).erase y).length = (pool.erase x).length - 1 :=
          List.length_erase_of_mem hy
        simp only [List.length_append, List.length_singleton, l1, l2]
        omega

/-! TwoWay pools: the bundled edge indices of distinct pool members are
pairwise distinct. -/

theorem tw_flat_distinct {tw : List TwoWay} (hf : (tw_flat tw).Nodup)
    {x y : TwoWay} (hx : x ∈ tw) (hy : y ∈ tw) (hxy : x ≠ y) :
    x.idx1 ≠ y.idx1 ∧ x.idx2 ≠ y.idx2 ∧ x.idx2 ≠ x.idx1 ∧ x.idx2 ≠ y.idx1 ∧
      y.idx2 ≠ x.idx1 ∧ y.idx2 ≠ y.idx1 := by
  unfold tw_flat at hf
  rw [List.nodup_flatMap] at hf
  obtain ⟨hall, hpw⟩ := hf
  have hxx : ([x.idx1, x.idx2]).Nodup := hall x hx
  have hyy : ([y.idx1, y.idx2]).Nodup := hall y hy
  have hsym : Symmetric (List.Disjoint on fun t : TwoWay => [t.idx1, t.idx2]) := by
    intro s t hst
    exact List.disjoint_comm.mp hst
  have hdisj : List.Disjoint [x.idx1, x.idx2] [y.idx1, y.idx2] :=
    List.Pairwise.forall hsym hpw hx hy hxy
  have h1 : x.idx1 ∉ [y.idx1, y.idx2] := fun hc => hdisj (by simp) hc
  have h2 : x.idx2 ∉ [y.idx1, y.idx2] := fun hc => hdisj (by simp) hc
  have e11 : x.idx1 ≠ y.idx1 := fun hc => h1 (by simp [hc])
  have e12 : x.idx1 ≠ y.idx2 := fun hc => h1 (by simp [hc])
  have e21 : x.idx2 ≠ y.idx1 := fun hc => h2 (by simp [hc])
  have e22 : x.idx2 ≠ y.idx2 := fun hc => h2 (by simp [hc])
  have hxd : x.idx1 ≠ x.idx2 := by simpa using hxx
  have hyd : y.idx1 ≠ y.idx2 := by simpa using hyy
  exact ⟨e11, e22, fun hc => hxd hc.symm, e21,
    fun hc => e12 hc.symm, fun hc => hyd hc.symm⟩

theorem twoway_swap_some_inv {g g1 : GameGraph} {x y n1 n2 : TwoWay}
    (hw : MapWF g)
    (_h12 : x.idx1 ≠ y.idx1) (h31 : x.idx2 ≠ x.idx1) (h32 : x.idx2 ≠ y.idx1)
    (h41 : y.idx2 ≠ x.idx1) (h42 : y.idx2 ≠ y.idx1)
    (h : TwoWay.swap x y g = some ((n1, n2), g1)) :
    ∃ p1a p1b p2a p2b q1a q1b q2a q2b a b c d u v w z,
      g.edges.getD x.idx1 none = some (p1a, p1b) ∧
      g.edges.getD y.idx1 none = some (p2a, p2b) ∧
      g.edges.getD x.idx2 none = some (q1a, q1b) ∧
      g.edges.getD y.idx2 none = some (q2a, q2b) ∧
      g.nodes.get? p1a = some a ∧ g.nodes.get? p1b = some b ∧
      g.nodes.get? p2a = some c ∧ g.nodes.get? p2b = some d ∧
      g.nodes.get? q1a = some u ∧ g.nodes.get? q1b = some v ∧
      g.nodes.get? q2a = some w ∧ g.nodes.get? q2b = some z ∧
      x.idx2 ≠ y.idx2 ∧
      n1 = ⟨y.idx1, x.idx2⟩ ∧ n2 = ⟨x.idx1, y.idx2⟩ ∧
      g1 = { g with edges :=
        ((((g.edges.set y.idx1 (some (p1a, p2b))).set x.idx1
            (some (p2a, p1b))).set y.idx2 (some (q1a, q2b))).set x.idx2
          (some (q2a, q1b))) } := by
  unfold TwoWay.swap at h
  cases hs1 : swap_edges x.idx1 y.idx1 g with
  | none => rw [hs1] at h; simp at h
  | some r1 =>
    rw [hs1] at h
    obtain ⟨p1a, p1b, p2a, p2b, a, b, c, d, -, hf1, hf2, ga, gb, gc, gd, hr1⟩ :=
      swap_edges_some_inv hw hs1
    subst hr1
    simp only at h
    cases hs2 : swap_edges x.idx2 y.idx2 { g with edges := (g.edges.set y.idx1 (some (p1a, p2b))).set x.idx1 (some (p2a, p1b)) } with
    | none => rw [hs2] at h; simp at h
    | some r2 =>
      rw [hs2] at h
      obtain ⟨q1a, q1b, q2a, q2b, u, v, w, z, hne2, hb1', hb2', gu, gv, gw, gz, hr2⟩ :=
        swap_edges_some_inv (g := { g with edges := (g.edges.set y.idx1 (some (p1a, p2b))).set x.idx1 (some (p2a, p1b)) }) hw hs2
      subst hr2
      simp only [Option.some.injEq, Prod.mk.injEq] at h
      obtain ⟨⟨hn1, hn2⟩, hg1⟩ := h
      have hb1 : g.edges.getD x.idx2 none = some (q1a, q1b) := by
        rw [← getD_swapped_other (e := x.idx2)
          (some (p1a, p2b)) (some (p2a, p1b)) (Ne.symm h31) (Ne.symm h32)]
        exact hb1'
      have hb2 : g.edges.getD y.idx2 none = some (q2a, q2b) := by
        rw [← getD_swapped_other (e := y.idx2)
          (some (p1a, p2b)) (some (p2a, p1b)) (Ne.symm h41) (Ne.symm h42)]
        exact hb2'
      exact ⟨p1a, p1b, p2a, p2b, q1a, q1b, q2a, q2b, a, b, c, d, u, v, w, z,
        hf1, hf2, hb1, hb2, ga, gb, gc, gd, gu, gv, gw, gz, hne2,
        hn1.symm, hn2.symm, hg1.symm⟩

theorem edge_count_quad {g : GameGraph} {s1 s2 s3 s4 : Nat}
    {p1 p2 q1 q2 : Nat × Nat} (X1 X2 X3 X4 : Nat × Nat)
    (hf1 : g.edges.getD s1 none = some p1) (hf2 : g.edges.getD s2 none = some p2)
    (hb1 : g.edges.getD s3 none = some q1) (hb2 : g.edges.getD s4 none = some q2)
    (h12 : s1 ≠ s2) (h31 : s3 ≠ s1) (h32 : s3 ≠ s2) (h41 : s4 ≠ s1)
    (h42 : s4 ≠ s2) (h34 : s3 ≠ s4) :
    edge_count { g with edges :=
      ((((g.edges.set s2 (some X1)).set s1 (some X2)).set s4 (some X3)).set s3
        (some X4)) } = edge_count g := by
  unfold edge_count
  have c2 : (g.edges.set s2 (some X1)).getD s1 none = some p1 := by
    rw [getD_set_of_ne _ _ (Ne.symm h12), hf1]
  have c3 : ((g.edges.set s2 (some X1)).set s1 (some X2)).getD s4 none = some q2 := by
    rw [getD_set_of_ne _ _ (Ne.symm h41), getD_set_of_ne _ _ (Ne.symm h42), hb2]
  have c4 : (((g.edges.set s2 (some X1)).set s1 (some X2)).set s4
      (some X3)).getD s3 none = some q1 := by
    rw [getD_set_of_ne _ _ (Ne.symm h34), getD_set_of_ne _ _ (Ne.symm h31),
      getD_set_of_ne _ _ (Ne.symm h32), hb1]
  calc (((((g.edges.set s2 (some X1)).set s1 (some X2)).set s4 (some X3)).set s3
        (some X4)).filterMap id).length
      = ((((g.edges.set s2 (some X1)).set s1 (some X2)).set s4
          (some X3)).filterMap id).length := filterMap_id_length_set _ s3 _ _ c4
    _ = (((g.edges.set s2 (some X1)).set s1 (some X2)).filterMap id).length :=
        filterMap_id_length_set _ s4 _ _ c3
    _ = ((g.edges.set s2 (some X1)).filterMap id).length :=
        filterMap_id_length_set _ s1 _ _ c2
    _ = (g.edges.filterMap id).length := filterMap_id_length_set _ s2 _ _ hf2

/-- A successful TwoWay exchange is undone exactly by exchanging the two new
TwoWay connections. -/
theorem twoway_back {g g1 : GameGraph} {x y n1 n2 : TwoWay}
    (hw : MapWF g) (e11 : x.idx1 ≠ y.idx1) (e31 : x.idx2 ≠ x.idx1)
    (e32 : x.idx2 ≠ y.idx1) (e41 : y.idx2 ≠ x.idx1) (e42 : y.idx2 ≠ y.idx1)
    (hswap : TwoWay.swap x y g = some ((n1, n2), g1)) :
    TwoWay.swap n1 n2 g1 = some ((x, y), g) := by
  obtain ⟨p1a, p1b, p2a, p2b, q1a, q1b, q2a, q2b, a, b, c, d, u, v, w, z,
    hf1, hf2, hb1, hb2, ga, gb, gc, gd, gu, gv, gw, gz, hne2, hn1, hn2, hg1⟩ :=
    twoway_swap_some_inv hw e11 e31 e32 e41 e42 hswap
  subst hn1 hn2 hg1
  exact twoway_swap_rollback g x y p1a p1b p2a p2b q1a q1b q2a q2b a b c d u v w z
    hw hf1 hf2 hb1 hb2 ga gb gc gd gu gv gw gz e11 hne2 e31 e32 e41 e42

/-- A failed speculative TwoWay swap is rolled back exactly. -/
theorem try_swap_rollback_tw {g g1 : GameGraph} {pool : List TwoWay}
    {rng rng1 : StdRng} {x y n1 n2 : TwoWay} {err : Error}
    (hw : MapWF g) (e11 : x.idx1 ≠ y.idx1) (e31 : x.idx2 ≠ x.idx1)
    (e32 : x.idx2 ≠ y.idx1) (e41 : y.idx2 ≠ x.idx1) (e42 : y.idx2 ≠ y.idx1)
    (hpick : pick_random_edges pool rng = (some (x, y), rng1))
    (hswap : TwoWay.swap x y g = some ((n1, n2), g1))
    (hbad : game_beatable g1 = Except.error err) :
    try_swap_edges g pool rng = some (g, pool, rng1) := by
  have hback := twoway_back hw e11 e31 e32 e41 e42 hswap
  unfold try_swap_edges
  rw [hpick]
  simp only [swappable_twoway_eq, hswap, hbad, hback]

theorem twoway_ne_of_idx1_ne {x y : TwoWay} (h : x.idx1 ≠ y.idx1) : x ≠ y := by
  intro hc; exact h (congrArg TwoWay.idx1 hc)

/-- One successful engine iteration on the TwoWay pool preserves the node-map
invariant, completability, the edge count, pool well-formedness and the pool
cardinality. -/
theorem try_swap_tw_step {g g' : GameGraph} {pool pool' : List TwoWay}
    {rng rng' : StdRng}
    (hw : MapWF g) (hnd : pool.Nodup) (hfl : (tw_flat pool).Nodup)
    (hbeat : game_beatable g = Except.ok ())
    (h : try_swap_edges g pool rng = some (g', pool', rng')) :
    MapWF g' ∧ game_beatable g' = Except.ok () ∧ edge_count g' = edge_count g ∧
      pool'.Nodup ∧ (tw_flat pool').Nodup ∧ pool'.length = pool.length := by
  rcases try_swap_edges_cases h with ⟨rng1, hpick, hout⟩ |
    ⟨x, y, rng1, n1, n2, g1, hpick, hswap, hrest⟩
  · simp only [Prod.mk.injEq] at hout
    obtain ⟨hg, hp, -⟩ := hout
    subst hg; subst hp
    exact ⟨hw, hbeat, rfl, hnd, hfl, rfl⟩
  · obtain ⟨hlen2, -, i, j, hi, hj, hij, hxe, hye⟩ := pick_random_edges_some_inv hpick
    have hx' : x ∈ pool := by rw [hxe]; exact getD_mem hi
    have hy' : y ∈ pool := by rw [hye]; exact getD_mem hj
    have hxy : x ≠ y := by rw [hxe, hye]; exact getD_ne_of_nodup hnd hi hj hij
    obtain ⟨e11, e22, e31, e32, e41, e42⟩ := tw_flat_distinct hfl hx' hy' hxy
    rw [swappable_twoway_eq] at hswap
    rcases hrest with ⟨err, p, g2, hbad, hsw2, hout⟩ | ⟨hok, hx, hy, hout⟩
    · have hback := twoway_back hw e11 e31 e32 e41 e42 hswap
      rw [swappable_twoway_eq, hback] at hsw2
      simp only [Option.some.injEq, Prod.mk.injEq] at hsw2
      obtain ⟨-, hg2⟩ := hsw2
      subst hg2
      simp only [Prod.mk.injEq] at hout
      obtain ⟨hg, hp, -⟩ := hout
      subst hg; subst hp
      exact ⟨hw, hbeat, rfl, hnd, hfl, rfl⟩
    · obtain ⟨p1a, p1b, p2a, p2b, q1a, q1b, q2a, q2b, a, b, c, d, u, v, w, z,
        hf1, hf2, hb1, hb2, ga, gb, gc, gd, gu, gv, gw, gz, hne2, hn1, hn2, hg1⟩ :=
        twoway_swap_some_inv hw e11 e31 e32 e41 e42 hswap
      have hnd1 : (pool.erase x).Nodup := hnd.erase x
      have hnd2 : ((pool.erase x).erase y).Nodup := hnd1.erase y
      have hz_pool : ∀ t ∈ (pool.erase x).erase y, t ∈ pool ∧ t ≠ x ∧ t ≠ y := by
        intro t ht
        have ht1 : t ∈ pool.erase x := List.mem_of_mem_erase ht
        refine ⟨List.mem_of_mem_erase ht1, ?_, ?_⟩
        · exact ((hnd.mem_erase_iff).mp ht1).1
        · exact ((hnd1.mem_erase_iff).mp ht).1
      have hmem1 : n1 ∉ (pool.erase x).erase y := by
        intro hcon
        obtain ⟨htp, -, hty⟩ := hz_pool n1 hcon
        have hd1 := (tw_flat_distinct hfl htp hy' hty).1
        rw [hn1] at hd1
        exact hd1 rfl
      have hn1y : n1 ≠ x := by
        intro hc
        have : n1.idx1 = x.idx1 := congrArg TwoWay.idx1 hc
        rw [hn1] at this
        exact e11 this.symm
      have hmem2 : n2 ∉ ((pool.erase x).erase y) ++ [n1] := by
        intro hcon
        rcases List.mem_append.mp hcon with hcon1 | hcon2
        · obtain ⟨htp, htx, -⟩ := hz_pool n2 hcon1
          have hd1 := (tw_flat_distinct hfl htp hx' htx).1
          rw [hn2] at hd1
          exact hd1 rfl
        · have hcc : n2 = n1 := List.mem_singleton.mp hcon2
          rw [hn1, hn2] at hcc
          have h13 := congrArg TwoWay.idx1 hcc
          exact e11 h13
      have hi1 : lhs_insert ((pool.erase x).erase y) n1 =
          ((pool.erase x).erase y) ++ [n1] := by
        unfold lhs_insert
        rw [if_neg hmem1]
      have hi2 : lhs_insert (((pool.erase x).erase y) ++ [n1]) n2 =
          (((pool.erase x).erase y) ++ [n1]) ++ [n2] := by
        unfold lhs_insert
        rw [if_neg hmem2]
      simp only [hi1, hi2, Prod.mk.injEq] at hout
      obtain ⟨hg, hp, -⟩ := hout
      subst hg; subst hp
      have hperm : (tw_flat ((((pool.erase x).erase y) ++ [n1]) ++ [n2])).Perm
          (tw_flat pool) := by
        have hp1 : pool.Perm (x :: pool.erase x) := List.perm_cons_erase hx'
        have hp2 : (pool.erase x).Perm (y :: (pool.erase x).erase y) :=
          List.perm_cons_erase hy
        have hp3 : pool.Perm (x :: y :: (pool.erase x).erase y) :=
          hp1.trans (List.Perm.cons x hp2)
        have hflat1 : (tw_flat pool).Perm
            (tw_flat (x :: y :: (pool.erase x).erase y)) :=
          List.Perm.flatMap_right _ hp3
        have heq1 : tw_flat (x :: y :: (pool.erase x).erase y) =
            x.idx1 :: x.idx2 :: y.idx1 :: y.idx2 ::
              tw_flat ((pool.erase x).erase y) := by
          simp [tw_flat]
        have heq2 : tw_flat ((((pool.erase x).erase y) ++ [n1]) ++ [n2]) =
            tw_flat ((pool.erase x).erase y) ++
              [y.idx1, x.idx2, x.idx1, y.idx2] := by
          rw [hn1, hn2]
          simp [tw_flat, List.flatMap_append]
        rw [heq2]
        refine List.Perm.trans (List.perm_append_comm) ?_
        refine List.Perm.trans ?_ (hflat1.trans (by rw [heq1])).symm
        have hstep1 : ([y.idx1, x.idx2, x.idx1, y.idx2] ++
            tw_flat ((pool.erase x).erase y)).Perm
            ([x.idx2, y.idx1, x.idx1, y.idx2] ++
              tw_flat ((pool.erase x).erase y)) :=
          List.Perm.append_right _ (List.Perm.swap _ _ _)
        have hstep2 : ([x.idx2, y.idx1, x.idx1, y.idx2] ++
            tw_flat ((pool.erase x).erase y)).Perm
            ([x.idx2, x.idx1, y.idx1, y.idx2] ++
              tw_flat ((pool.erase x).erase y)) :=
          List.Perm.append_right _ (List.Perm.cons _ (List.Perm.swap _ _ _))
        have hstep3 : ([x.idx2, x.idx1, y.idx1, y.idx2] ++
            tw_flat ((pool.erase x).erase y)).Perm
            ([x.idx1, x.idx2, y.idx1, y.idx2] ++
              tw_flat ((pool.erase x).erase y)) :=
          List.Perm.append_right _ (List.Perm.swap _ _ _)
        exact (hstep1.trans hstep2).trans hstep3
      refine ⟨by rw [hg1]; exact hw, hok, ?_, ?_, ?_, ?_⟩
      · rw [hg1]
        exact edge_count_quad _ _ _ _ hf1 hf2 hb1 hb2 e11 e31 e32 e41 e42 hne2
      · rw [List.nodup_append]
        refine ⟨?_, by simp, ?_⟩
        · rw [List.nodup_append]
          refine ⟨hnd2, by simp, ?_⟩
          intro t ht1 ht2
          rw [List.mem_singleton.mp ht2] at ht1
          exact hmem1 ht1
        · intro t ht1 ht2
          rw [List.mem_singleton.mp ht2] at ht1
          exact hmem2 ht1
      · exact (hperm.nodup_iff).mpr hfl
      · have l1 : (pool.erase x).length = pool.length - 1 :=
          List.length_erase_of_mem hx
        have l2 : ((pool.erase x).erase y).length = (pool.erase x).length - 1 :=
          List.length_erase_of_mem hy
        simp only [List.length_append, List.length_singleton, l1, l2]
        omega

/-- The engine loop invariant: map well-formedness, completability, edge
count and pool cardinalities (plus pool distinctness) are preserved by every
successful run of the iteration loop. -/
theorem build_loop_inv :
    ∀ (n : Nat) (g : GameGraph) (ow : List OneWay) (tw : List TwoWay)
      (rng : StdRng) (g' : GameGraph) (ow' : List OneWay) (tw' : List TwoWay)
      (rng' : StdRng),
      MapWF g → game_beatable g = Except.ok () → ow.Nodup → tw.Nodup →
      (tw_flat tw).Nodup →
      build_loop g ow tw rng n = some (g', ow', tw', rng') →
      MapWF g' ∧ game_beatable g' = Except.ok () ∧
        edge_count g' = edge_count g ∧ ow'.length = ow.length ∧
        tw'.length = tw.length ∧ ow'.Nodup ∧ tw'.Nodup ∧ (tw_flat tw').Nodup := by
  intro n
  induction n with
  | zero =>
    intro g ow tw rng g' ow' tw' rng' hw hb how htw hfl h
    simp only [build_loop, Option.some.injEq, Prod.mk.injEq] at h
    obtain ⟨h1, h2, h3, -⟩ := h
    subst h1; subst h2; subst h3
    exact ⟨hw, hb, rfl, rfl, rfl, how, htw, hfl⟩
  | succ n ih =>
    intro g ow tw rng g' ow' tw' rng' hw hb how htw hfl h
    unfold build_loop at h
    rcases hgb : gen_bool rng with ⟨bit, rng1⟩
    rw [hgb] at h
    cases bit with
    | true =>
      simp only at h
      cases hts : try_swap_edges g ow rng1 with
      | none => rw [hts] at h; simp at h
      | some r =>
        obtain ⟨g2, ow2, rng2⟩ := r
        rw [hts] at h
        simp only at h
        obtain ⟨hw2, hb2, hc2, hnd2, hlen2⟩ := try_swap_ow_step hw how hb hts
        obtain ⟨hw3, hb3, hc3, ho3, ht3, hnd3a, hnd3b, hfl3⟩ :=
          ih g2 ow2 tw rng2 g' ow' tw' rng' hw2 hb2 hnd2 htw hfl h
        exact ⟨hw3, hb3, hc3.trans hc2, ho3.trans hlen2, ht3, hnd3a, hnd3b, hfl3⟩
    | false =>
      simp only at h
      cases hts : try_swap_edges g tw rng1 with
      | none => rw [hts] at h; simp at h
      | some r =>
        obtain ⟨g2, tw2, rng2⟩ := r
        rw [hts] at h
        simp only at h
        obtain ⟨hw2, hb2, hc2, hnd2, hfl2, hlen2⟩ := try_swap_tw_step hw htw hfl hb hts
        obtain ⟨hw3, hb3, hc3, ho3, ht3, hnd3a, hnd3b, hfl3⟩ :=
          ih g2 ow tw2 rng2 g' ow' tw' rng' hw2 hb2 how hnd2 hfl2 h
        exact ⟨hw3, hb3, hc3.trans hc2, ho3, ht3.trans hlen2, hnd3a, hnd3b, hfl3⟩

theorem build_game_ok_inv {w w' : GameWorld} {rng rng' : StdRng} {n : Nat}
    (h : build_game w rng n = some (Except.ok (w', rng'))) :
    game_beatable w.graph = Except.ok () ∧
      build_loop w.graph w.swappable_one_ways w.swappable_two_ways rng n =
        some (w'.graph, w'.swappable_one_ways, w'.swappable_two_ways, rng') := by
  unfold build_game at h
  cases hb : game_beatable w.graph with
  | error e => rw [hb] at h; simp at h
  | ok u =>
    obtain ⟨⟩ := u
    rw [hb] at h
    simp only at h
    cases hl : build_loop w.graph w.swappable_one_ways w.swappable_two_ways rng n with
    | none => rw [hl] at h; simp at h
    | some q =>
      obtain ⟨g2, ow2, tw2, rng2⟩ := q
      rw [hl] at h
      simp only [Option.some.injEq, Except.ok.injEq, Prod.mk.injEq] at h
      obtain ⟨hww, hrr⟩ := h
      subst hrr
      subst hww
      exact ⟨rfl, rfl⟩

/-! Soundness and completeness of the bounded reachability iteration. -/

theorem mem_succ_list {es : List (Nat × Nat)} {y x : Nat} :
    x ∈ succ_list es y ↔ (y, x) ∈ es := by
  unfold succ_list
  rw [List.mem_map]
  constructor
  · rintro ⟨p, hp, rfl⟩
    rw [List.mem_filter] at hp
    obtain ⟨hpe, hp1⟩ := hp
    have : p.1 = y := by simpa using hp1
    rw [← this]
    exact hpe
  · intro hxy
    exact ⟨(y, x), List.mem_filter.mpr ⟨hxy, by simp⟩, rfl⟩

theorem mem_step_set {es : List (Nat × Nat)} {s : List Nat} {x : Nat} :
    x ∈ step_set es s ↔ x ∈ s ∨ ∃ y ∈ s, (y, x) ∈ es := by
  unfold step_set
  rw [List.mem_dedup, List.mem_append, List.mem_flatMap]
  constructor
  · rintro (hx | ⟨y, hy, hsx⟩)
    · exact Or.inl hx
    · exact Or.inr ⟨y, hy, mem_succ_list.mp hsx⟩
  · rintro (hx | ⟨y, hy, hsx⟩)
    · exact Or.inl hx
    · exact Or.inr ⟨y, hy, mem_succ_list.mpr hsx⟩

theorem self_mem_reach_list (es : List (Nat × Nat)) (i : Nat) :
    ∀ f, i ∈ reach_list es i f := by
  intro f
  induction f with
  | zero => simp [reach_list]
  | succ f ih => exact mem_step_set.mpr (Or.inl ih)

theorem reach_list_mono {es : List (Nat × Nat)} {i : Nat} {f : Nat} {x : Nat}
    (h : x ∈ reach_list es i f) : x ∈ reach_list es i (f + 1) :=
  mem_step_set.mpr (Or.inl h)

theorem reach_list_sound {es : List (Nat × Nat)} {i : Nat} :
    ∀ {f : Nat} {j : Nat}, j ∈ reach_list es i f → Reaches es i j := by
  intro f
  induction f with
  | zero =>
    intro j hj
    simp [reach_list] at hj
    rw [hj]
    exact Reaches.refl i
  | succ f ih =>
    intro j hj
    rcases mem_step_set.mp hj with hj1 | ⟨y, hy, hyx⟩
    · exact ih hj1
    · exact Reaches.tail (ih hy) hyx

theorem reaches_trans {es : List (Nat × Nat)} {i j k : Nat}
    (h1 : Reaches es i j) (h2 : Reaches es j k) : Reaches es i k := by
  induction h2 with
  | refl => exact h1
  | tail _ he ih => exact Reaches.tail ih he

theorem reach_list_lt {es : List (Nat × Nat)} {n i : Nat}
    (hs : ∀ p ∈ es, p.2 < n) (hi : i < n) :
    ∀ f, ∀ x ∈ reach_list es i f, x < n := by
  intro f
  induction f with
  | zero => intro x hx; simp [reach_list] at hx; omega
  | succ f ih =>
    intro x hx
    rcases mem_step_set.mp hx with hx1 | ⟨y, _, hyx⟩
    · exact ih x hx1
    · exact hs (y, x) hyx

theorem step_set_congr {es : List (Nat × Nat)} {s t : List Nat}
    (h : ∀ x, x ∈ s ↔ x ∈ t) :
    ∀ x, x ∈ step_set es s ↔ x ∈ step_set es t := by
  intro x
  rw [mem_step_set, mem_step_set]
  constructor
  · rintro (hx | ⟨y, hy, hyx⟩)
    · exact Or.inl ((h x).mp hx)
    · exact Or.inr ⟨y, (h y).mp hy, hyx⟩
  · rintro (hx | ⟨y, hy, hyx⟩)
    · exact Or.inl ((h x).mpr hx)
    · exact Or.inr ⟨y, (h y).mpr hy, hyx⟩

theorem reach_stable_step {es : List (Nat × Nat)} {i f : Nat}
    (h : ∀ x, x ∈ reach_list es i (f + 1) ↔ x ∈ reach_list es i f) :
    ∀ x, x ∈ reach_list es i (f + 2) ↔ x ∈ reach_list es i (f + 1) := by
  intro x
  exact step_set_congr h x

theorem reach_stable_ge {es : List (Nat × Nat)} {i f : Nat}
    (h : ∀ x, x ∈ reach_list es i (f + 1) ↔ x ∈ reach_list es i f) :
    ∀ m, f ≤ m → ∀ x, x ∈ reach_list es i (m + 1) ↔ x ∈ reach_list es i m := by
  intro m
  induction m with
  | zero =>
    intro hf
    have : f = 0 := by omega
    rw [this] at h
    exact h
  | succ m ih =>
    intro hf
    by_cases hfm : f ≤ m
    · exact reach_stable_step (ih hfm)
    · have : f = m + 1 := by omega
      rw [this] at h
      exact h

theorem reach_exists_stable {es : List (Nat × Nat)} {n i : Nat}
    (hs : ∀ p ∈ es, p.2 < n) (hi : i < n) :
    ∃ f, f < n ∧ ∀ x, x ∈ reach_list es i (f + 1) ↔ x ∈ reach_list es i f := by
  by_contra hno
  push_neg at hno
  have grow : ∀ m, m ≤ n → m + 1 ≤ ((reach_list es i m).toFinset).card := by
    intro m
    induction m with
    | zero =>
      intro _
      have hmem : i ∈ (reach_list es i 0).toFinset := by simp [reach_list]
      have := Finset.card_pos.mpr ⟨i, hmem⟩
      omega
    | succ m ih =>
      intro hm
      have hmn : m < n := by omega
      obtain ⟨x, hx⟩ := hno m hmn
      have hx1 : x ∈ reach_list es i (m + 1) ∧ x ∉ reach_list es i m := by
        rcases hx with h1 | h2
        · exact h1
        · exact absurd (reach_list_mono h2.2) h2.1
      have hsub : (reach_list es i m).toFinset ⊆ (reach_list es i (m + 1)).toFinset := by
        intro t ht
        rw [List.mem_toFinset] at ht ⊢
        exact reach_list_mono ht
      have hss : (reach_list es i m).toFinset ⊂ (reach_list es i (m + 1)).toFinset := by
        rw [Finset.ssubset_def]
        refine ⟨hsub, ?_⟩
        intro hsup
        exact hx1.2 (List.mem_toFinset.mp (hsup (List.mem_toFinset.mpr hx1.1)))
      have hcard := Finset.card_lt_card hss
      have hih := ih (by omega)
      omega
  have hbound : ((reach_list es i n).toFinset).card ≤ n := by
    have hsub : (reach_list es i n).toFinset ⊆ Finset.range n := by
      intro t ht
      rw [List.mem_toFinset] at ht
      rw [Finset.mem_range]
      exact reach_list_lt hs hi n t ht
    calc ((reach_list es i n).toFinset).card
        ≤ (Finset.range n).card := Finset.card_le_card hsub
      _ = n := Finset.card_range n
  have := grow n (le_refl n)
  omega

theorem reach_list_complete {es : List (Nat × Nat)} {n i j : Nat}
    (hs : ∀ p ∈ es, p.2 < n) (hi : i < n) (hr : Reaches es i j) :
    j ∈ reach_list es i n := by
  obtain ⟨f, hfn, hstab⟩ := reach_exists_stable hs hi
  have hstabn : ∀ x, x ∈ reach_list es i (n + 1) ↔ x ∈ reach_list es i n :=
    reach_stable_ge hstab n (by omega)
  induction hr with
  | refl => exact self_mem_reach_list es i n
  | tail hij hedge ih =>
    exact (hstabn _).mp (mem_step_set.mpr (Or.inr ⟨_, ih, hedge⟩))

/-- The executable reachability test agrees with the reflexive-transitive
closure of the edge relation, for start nodes inside the node store. -/
theorem reachable_iff {g : GameGraph} {i j : Nat}
    (hE : EdgesOk g) (hi : i < node_count g) :
    reachable_b g i j = true ↔ Reaches (live_edges g) i j := by
  unfold reachable_b
  rw [List.elem_iff]
  constructor
  · exact reach_list_sound
  · intro hr
    exact reach_list_complete (fun p hp => (hE p hp).2) hi hr

theorem same_scc_iff {g : GameGraph} {i j : Nat}
    (hE : EdgesOk g) (hi : i < node_count g) (hj : j < node_count g) :
    same_scc g i j = true ↔ SameSCC (live_edges g) i j := by
  unfold same_scc SameSCC
  rw [Bool.and_eq_true, reachable_iff hE hi, reachable_iff hE hj]

theorem same_scc_refl (g : GameGraph) (i : Nat) : same_scc g i i = true := by
  unfold same_scc reachable_b
  rw [Bool.and_eq_true]
  exact ⟨List.elem_iff.mpr (self_mem_reach_list _ _ _),
    List.elem_iff.mpr (self_mem_reach_list _ _ _)⟩

theorem same_scc_symm {g : GameGraph} {i j : Nat}
    (h : same_scc g i j = true) : same_scc g j i = true := by
  unfold same_scc at h ⊢
  rw [Bool.and_eq_true] at h ⊢
  exact ⟨h.2, h.1⟩

theorem same_scc_trans {g : GameGraph} {i j k : Nat}
    (hE : EdgesOk g) (hi : i < node_count g) (hk : k < node_count g)
    (h1 : same_scc g i j = true) (h2 : same_scc g j k = true) :
    same_scc g i k = true := by
  unfold same_scc at h1 h2 ⊢
  rw [Bool.and_eq_true] at h1 h2 ⊢
  unfold reachable_b at h1 h2 ⊢
  have hts : ∀ p ∈ live_edges g, p.2 < node_count g := fun p hp => (hE p hp).2
  constructor
  · exact List.elem_iff.mpr (reach_list_complete hts hi
      (reaches_trans (reach_list_sound (List.elem_iff.mp h1.1))
        (reach_list_sound (List.elem_iff.mp h2.1))))
  · exact List.elem_iff.mpr (reach_list_complete hts hk
      (reaches_trans (reach_list_sound (List.elem_iff.mp h2.2))
        (reach_list_sound (List.elem_iff.mp h1.2))))

theorem is_root_node_iff {g : GameGraph} {i : Nat}
    (hE : EdgesOk g) (hi : i < node_count g) :
    is_root_node g i = true ↔
      ∀ p ∈ live_edges g,
        SameSCC (live_edges g) p.2 i → SameSCC (live_edges g) p.1 i := by
  unfold is_root_node
  rw [List.all_eq_true]
  constructor
  · intro h p hp hsp
    have hb := h p hp
    rw [Bool.or_eq_true, Bool.not_eq_true'] at hb
    rcases hb with hb | hb
    · rw [← same_scc_iff hE (hE p hp).2 hi] at hsp
      rw [hsp] at hb
      cases hb
    · exact (same_scc_iff hE (hE p hp).1 hi).mp hb
  · intro h p hp
    rw [Bool.or_eq_true, Bool.not_eq_true']
    by_cases hs : same_scc g p.2 i = true
    · right
      rw [same_scc_iff hE (hE p hp).1 hi]
      exact h p hp ((same_scc_iff hE (hE p hp).2 hi).mp hs)
    · left
      exact Bool.not_eq_true _ ▸ hs

theorem is_root_idx_iff {g : GameGraph} {i : Nat} (hE : EdgesOk g) :
    IsRootIdx g i ↔ i < node_count g ∧ is_root_node g i = true := by
  unfold IsRootIdx
  constructor
  · intro ⟨hi, h⟩
    exact ⟨hi, (is_root_node_iff hE hi).mpr h⟩
  · intro ⟨hi, h⟩
    exact ⟨hi, (is_root_node_iff hE hi).mp h⟩

theorem sameSCC_symm {es : List (Nat × Nat)} {i j : Nat}
    (h : SameSCC es i j) : SameSCC es j i := ⟨h.2, h.1⟩

theorem sameSCC_trans {es : List (Nat × Nat)} {i j k : Nat}
    (h1 : SameSCC es i j) (h2 : SameSCC es j k) : SameSCC es i k :=
  ⟨reaches_trans h1.1 h2.1, reaches_trans h2.2 h1.2⟩

theorem scc_repr_spec {g : GameGraph} {i : Nat} (hi : i < node_count g) :
    scc_repr g i < node_count g ∧ same_scc g i (scc_repr g i) = true := by
  unfold scc_repr
  have hmem : i ∈ (List.range (node_count g)).filter (fun j => same_scc g i j) :=
    List.mem_filter.mpr ⟨List.mem_range.mpr hi, same_scc_refl g i⟩
  have hh : ((List.range (node_count g)).filter (fun j => same_scc g i j)).headD i ∈
      (List.range (node_count g)).filter (fun j => same_scc g i j) := by
    cases hL : (List.range (node_count g)).filter (fun j => same_scc g i j) with
    | nil => rw [hL] at hmem; cases hmem
    | cons a l => simp
  have hf := List.mem_filter.mp hh
  exact ⟨List.mem_range.mp hf.1, hf.2⟩

theorem scc_repr_congr {g : GameGraph} {i i' : Nat} (hE : EdgesOk g)
    (hi : i < node_count g) (hi' : i' < node_count g)
    (hs : same_scc g i i' = true) : scc_repr g i = scc_repr g i' := by
  unfold scc_repr
  have hfe : (List.range (node_count g)).filter (fun j => same_scc g i j) =
      (List.range (node_count g)).filter (fun j => same_scc g i' j) := by
    apply List.filter_congr
    intro j hj
    have hjn : j < node_count g := List.mem_range.mp hj
    rw [Bool.eq_iff_iff]
    constructor
    · intro h1
      exact same_scc_trans hE hi' hjn (same_scc_symm hs) h1
    · intro h1
      exact same_scc_trans hE hi hjn hs h1
  have hmem : i ∈ (List.range (node_count g)).filter (fun j => same_scc g i j) :=
    List.mem_filter.mpr ⟨List.mem_range.mpr hi, same_scc_refl g i⟩
  rw [hfe] at hmem
  rw [hfe]
  cases hL : (List.range (node_count g)).filter (fun j => same_scc g i' j) with
  | nil => rw [hL] at hmem; cases hmem
  | cons a l => rfl

theorem scc_repr_idem {g : GameGraph} {i : Nat} (hE : EdgesOk g)
    (hi : i < node_count g) : scc_repr g (scc_repr g i) = scc_repr g i := by
  obtain ⟨hr, hs⟩ := scc_repr_spec hi
  exact scc_repr_congr hE hr hi (same_scc_symm hs)

theorem is_root_congr {g : GameGraph} {i i' : Nat} (hE : EdgesOk g)
    (hi : i < node_count g) (hi' : i' < node_count g)
    (hs : same_scc g i i' = true) (h : is_root_node g i = true) :
    is_root_node g i' = true := by
  rw [is_root_node_iff hE hi']
  rw [is_root_node_iff hE hi] at h
  have hsP : SameSCC (live_edges g) i i' := (same_scc_iff hE hi hi').mp hs
  intro p hp hsp
  exact sameSCC_trans (h p hp (sameSCC_trans hsp (sameSCC_symm hsP))) hsP

theorem mem_condensed_roots {g : GameGraph} {r : Nat} :
    r ∈ condensed_roots g ↔
      r < node_count g ∧ scc_repr g r = r ∧ is_root_node g r = true := by
  unfold condensed_roots
  rw [List.mem_filter, List.mem_range, Bool.and_eq_true, beq_iff_eq]

/-- The analyzer counts exactly one condensed root iff there is a root SCC
and every two root nodes lie in the same SCC. -/
theorem condensed_roots_length_one_iff {g : GameGraph} (hE : EdgesOk g) :
    (condensed_roots g).length = 1 ↔
      ((∃ i, IsRootIdx g i) ∧
        ∀ i j, IsRootIdx g i → IsRootIdx g j → SameSCC (live_edges g) i j) := by
  constructor
  · intro hlen
    obtain ⟨r, hr⟩ := List.length_eq_one.mp hlen
    have hrmem : r ∈ condensed_roots g := by rw [hr]; simp
    obtain ⟨hrn, hrr, hroot⟩ := mem_condensed_roots.mp hrmem
    have key : ∀ k, IsRootIdx g k → same_scc g k r = true := by
      intro k hk
      obtain ⟨hkn, hkroot⟩ := (is_root_idx_iff hE).mp hk
      obtain ⟨hrepr_lt, hkr⟩ := scc_repr_spec hkn
      have hroot' : is_root_node g (scc_repr g k) = true :=
        is_root_congr hE hkn hrepr_lt hkr hkroot
      have hmem : scc_repr g k ∈ condensed_roots g :=
        mem_condensed_roots.mpr ⟨hrepr_lt, scc_repr_idem hE hkn, hroot'⟩
      rw [hr] at hmem
      have hkrr : scc_repr g k = r := by simpa using hmem
      rw [← hkrr]
      exact hkr
    constructor
    · exact ⟨r, (is_root_idx_iff hE).mpr ⟨hrn, hroot⟩⟩
    · intro i j hi hj
      have hik := key i hi
      have hjk := key j hj
      obtain ⟨hin, -⟩ := (is_root_idx_iff hE).mp hi
      obtain ⟨hjn, -⟩ := (is_root_idx_iff hE).mp hj
      exact (same_scc_iff hE hin hjn).mp
        (same_scc_trans hE hin hjn hik (same_scc_symm hjk))
  · rintro ⟨⟨i0, hi0⟩, huniq⟩
    obtain ⟨hi0n, hi0root⟩ := (is_root_idx_iff hE).mp hi0
    obtain ⟨hrlt, hrs⟩ := scc_repr_spec hi0n
    have hrroot : is_root_node g (scc_repr g i0) = true :=
      is_root_congr hE hi0n hrlt hrs hi0root
    have hrmem : scc_repr g i0 ∈ condensed_roots g :=
      mem_condensed_roots.mpr ⟨hrlt, scc_repr_idem hE hi0n, hrroot⟩
    have huniq' : ∀ s ∈ condensed_roots g, s = scc_repr g i0 := by
      intro s hs
      obtain ⟨hsn, hsr, hsroot⟩ := mem_condensed_roots.mp hs
      have hsRoot : IsRootIdx g s := (is_root_idx_iff hE).mpr ⟨hsn, hsroot⟩
      have hrRoot : IsRootIdx g (scc_repr g i0) :=
        (is_root_idx_iff hE).mpr ⟨hrlt, hrroot⟩
      have hsame : same_scc g s (scc_repr g i0) = true :=
        (same_scc_iff hE hsn hrlt).mpr (huniq s (scc_repr g i0) hsRoot hrRoot)
      have hcongr := scc_repr_congr hE hsn hrlt hsame
      rw [hsr, scc_repr_idem hE hi0n] at hcongr
      exact hcongr
    have hnd : (condensed_roots g).Nodup := (List.nodup_range _).filter _
    rw [List.length_eq_one]
    refine ⟨scc_repr g i0, ?_⟩
    cases hL : condensed_roots g with
    | nil => rw [hL] at hrmem; cases hrmem
    | cons a l =>
      have ha : a = scc_repr g i0 := huniq' a (by rw [hL]; simp)
      have hl : l = [] := by
        cases hl2 : l with
        | nil => rfl
        | cons b l' =>
          have hb : b = scc_repr g i0 := huniq' b (by rw [hL, hl2]; simp)
          rw [hL, hl2] at hnd
          rw [List.nodup_cons] at hnd
          exact absurd (by rw [ha, ← hb]; simp : a ∈ b :: l') hnd.1
      rw [ha, hl]

theorem count_out_set :
    ∀ (l : List (Option (Nat × Nat))) (k : Nat) (p q : Nat × Nat) (i : Nat),
      l.getD k none = some p →
      count_out (l.set k (some q)) i + (if p.1 = i then 1 else 0) =
        count_out l i + (if q.1 = i then 1 else 0) := by
  intro l
  induction l with
  | nil => intro k p q i h; simp [List.getD] at h
  | cons a l ih =>
    intro k p q i h
    cases k with
    | zero =>
      rw [List.getD_cons_zero] at h
      subst h
      simp only [List.set_cons_zero, count_out]
      omega
    | succ k =>
      rw [List.getD_cons_succ] at h
      cases a with
      | none =>
        simp only [List.set_cons_succ, count_out]
        exact ih k p q i h
      | some z =>
        simp only [List.set_cons_succ, count_out]
        have := ih k p q i h
        omega

theorem count_in_set :
    ∀ (l : List (Option (Nat × Nat))) (k : Nat) (p q : Nat × Nat) (i : Nat),
      l.getD k none = some p →
      count_in (l.set k (some q)) i + (if p.2 = i then 1 else 0) =
        count_in l i + (if q.2 = i then 1 else 0) := by
  intro l
  induction l with
  | nil => intro k p q i h; simp [List.getD] at h
  | cons a l ih =>
    intro k p q i h
    cases k with
    | zero =>
      rw [List.getD_cons_zero] at h
      subst h
      simp only [List.set_cons_zero, count_in]
      omega
    | succ k =>
      rw [List.getD_cons_succ] at h
      cases a with
      | none =>
        simp only [List.set_cons_succ, count_in]
        exact ih k p q i h
      | some z =>
        simp only [List.set_cons_succ, count_in]
        have := ih k p q i h
        omega

theorem count_out_swapped {g : GameGraph} {e1 e2 ia ib ic id2 : Nat}
    (he1 : g.edges.getD e1 none = some (ia, ib))
    (he2 : g.edges.getD e2 none = some (ic, id2))
    (hne : e1 ≠ e2) (i : Nat) :
    count_out ((g.edges.set e2 (some (ia, id2))).set e1 (some (ic, ib))) i =
      count_out g.edges i := by
  have c1 := count_out_set g.edges e2 (ic, id2) (ia, id2) i he2
  have hgd : (g.edges.set e2 (some (ia, id2))).getD e1 none = some (ia, ib) := by
    rw [getD_set_of_ne _ _ (Ne.symm hne), he1]
  have c2 := count_out_set (g.edges.set e2 (some (ia, id2))) e1 (ia, ib) (ic, ib) i hgd
  simp only at c1 c2
  omega

theorem count_in_swapped {g : GameGraph} {e1 e2 ia ib ic id2 : Nat}
    (he1 : g.edges.getD e1 none = some (ia, ib))
    (he2 : g.edges.getD e2 none = some (ic, id2))
    (hne : e1 ≠ e2) (i : Nat) :
    count_in ((g.edges.set e2 (some (ia, id2))).set e1 (some (ic, ib))) i =
      count_in g.edges i := by
  have c1 := count_in_set g.edges e2 (ic, id2) (ia, id2) i he2
  have hgd : (g.edges.set e2 (some (ia, id2))).getD e1 none = some (ia, ib) := by
    rw [getD_set_of_ne _ _ (Ne.symm hne), he1]
  have c2 := count_in_set (g.edges.set e2 (some (ia, id2))) e1 (ia, ib) (ic, ib) i hgd
  simp only at c1 c2
  omega

theorem mem_root_scc_node_ids {g : GameGraph} {x : NodeID} (hE : EdgesOk g) :
    x ∈ root_scc_node_ids g ↔ ∃ i, IsRootIdx g i ∧ g.nodes.get? i = some x := by
  unfold root_scc_node_ids
  rw [List.mem_filterMap]
  constructor
  · rintro ⟨i, hi, hget⟩
    rw [List.mem_filter, List.mem_range] at hi
    exact ⟨i, (is_root_idx_iff hE).mpr ⟨hi.1, hi.2⟩, hget⟩
  · rintro ⟨i, hroot, hget⟩
    obtain ⟨hin, hroot'⟩ := (is_root_idx_iff hE).mp hroot
    exact ⟨i, List.mem_filter.mpr ⟨List.mem_range.mpr hin, hroot'⟩, hget⟩

/-- C1: for every directed multigraph (with edges into the node store),
`game_beatable` returns Ok exactly when the SCC condensation has exactly one
node with no incoming condensed edge — there is a root SCC and all root nodes
share one SCC — and otherwise returns the Unbeatable error whose payload
contains exactly the NodeIDs of the original nodes lying in root SCCs. -/
theorem c1_game_beatable_correct (g : GameGraph) (hE : EdgesOk g) :
    (game_beatable g = Except.ok () ↔
      ((∃ i, IsRootIdx g i) ∧
        ∀ i j, IsRootIdx g i → IsRootIdx g j → SameSCC (live_edges g) i j)) ∧
    (∀ ids, game_beatable g = Except.error (Error.GameUnbeatable ids) →
      ∀ x, x ∈ ids ↔ ∃ i, IsRootIdx g i ∧ g.nodes.get? i = some x) := by
  constructor
  · rw [← condensed_roots_length_one_iff hE]
    unfold game_beatable
    by_cases h : (condensed_roots g).length = 1
    · simp [h]
    · simp [h]
  · intro ids hids x
    unfold game_beatable at hids
    by_cases h : (condensed_roots g).length = 1
    · rw [if_pos h] at hids
      simp at hids
    · rw [if_neg h] at hids
      simp only [Except.error.injEq, Error.GameUnbeatable.injEq] at hids
      rw [← hids]
      exact mem_root_scc_node_ids hE

theorem c1_game_beatable_correct_witness :
    EdgesOk (from_edges [(0, 1), (1, 2)]) ∧
      ((game_beatable (from_edges [(0, 1), (1, 2)]) = Except.ok () ↔
        ((∃ i, IsRootIdx (from_edges [(0, 1), (1, 2)]) i) ∧
          ∀ i j, IsRootIdx (from_edges [(0, 1), (1, 2)]) i →
            IsRootIdx (from_edges [(0, 1), (1, 2)]) j →
            SameSCC (live_edges (from_edges [(0, 1), (1, 2)])) i j)) ∧
      (∀ ids, game_beatable (from_edges [(0, 1), (1, 2)]) =
          Except.error (Error.GameUnbeatable ids) →
        ∀ x, x ∈ ids ↔ ∃ i, IsRootIdx (from_edges [(0, 1), (1, 2)]) i ∧
          (from_edges [(0, 1), (1, 2)]).nodes.get? i = some x)) :=
  ⟨by decide, c1_game_beatable_correct (from_edges [(0, 1), (1, 2)]) (by decide)⟩

/-- C2: the single-edge Exchange on two distinct live edges (a, b) and (c, d)
removes both edges before inserting, then returns `(new1, new2)` where `new1`
is the new edge (a, d) and `new2` the new edge (c, b); this holds with no
endpoint merged, lost or duplicated also when the two edges share endpoints,
since `a, b, c, d` are not required distinct. -/
theorem c2_swap_edges_endpoints (g : GameGraph) (e1 e2 : Nat) (a b c d : NodeID)
    (hw : MapWF g)
    (h1 : edge_endpoints g e1 = some (a, b))
    (h2 : edge_endpoints g e2 = some (c, d))
    (hne : e1 ≠ e2) :
    ∃ new1 new2 g', swap_edges e1 e2 g = some ((new1, new2), g') ∧
      edge_endpoints g' new1 = some (a, d) ∧
      edge_endpoints g' new2 = some (c, b) := by
  obtain ⟨ia, ib, he1, ha, hb⟩ := edge_endpoints_elim hw.1 h1
  obtain ⟨ic, id2, he2, hc, hd⟩ := edge_endpoints_elim hw.1 h2
  refine ⟨e2, e1, _,
    swap_edges_eq g e1 e2 ia ib ic id2 a b c d hw he1 he2 ha hb hc hd hne, ?_, ?_⟩
  · exact edge_endpoints_intro hw.1
      (getD_swapped_fst _ _ hne (getD_none_some_lt he2)) ha hd
  · exact edge_endpoints_intro hw.1
      (getD_swapped_snd _ _ (getD_none_some_lt he1)) hc hb

theorem c2_swap_edges_endpoints_witness :
    MapWF (from_edges [(9, 10), (8, 10)]) ∧
      edge_endpoints (from_edges [(9, 10), (8, 10)]) 0 = some (9, 10) ∧
      edge_endpoints (from_edges [(9, 10), (8, 10)]) 1 = some (8, 10) ∧
      (0 : Nat) ≠ 1 ∧
      (∃ new1 new2 g',
        swap_edges 0 1 (from_edges [(9, 10), (8, 10)]) = some ((new1, new2), g') ∧
        edge_endpoints g' new1 = some (9, 10) ∧
        edge_endpoints g' new2 = some (8, 10)) :=
  ⟨by decide, by decide, by decide, by decide,
    c2_swap_edges_endpoints (from_edges [(9, 10), (8, 10)]) 0 1 9 10 8 10
      (by decide) (by decide) (by decide) (by decide)⟩

/-- C9: the Exchange is a pure endpoint permutation: the edge count and every
node's out-degree and in-degree are preserved exactly. -/
theorem c9_swap_preserves_counts (g : GameGraph) (e1 e2 : Nat) (a b c d : NodeID)
    (hw : MapWF g)
    (h1 : edge_endpoints g e1 = some (a, b))
    (h2 : edge_endpoints g e2 = some (c, d))
    (hne : e1 ≠ e2) :
    ∃ new1 new2 g', swap_edges e1 e2 g = some ((new1, new2), g') ∧
      edge_count g' = edge_count g ∧
      (∀ v, out_degree g' v = out_degree g v) ∧
      (∀ v, in_degree g' v = in_degree g v) := by
  obtain ⟨ia, ib, he1, ha, hb⟩ := edge_endpoints_elim hw.1 h1
  obtain ⟨ic, id2, he2, hc, hd⟩ := edge_endpoints_elim hw.1 h2
  refine ⟨e2, e1, _,
    swap_edges_eq g e1 e2 ia ib ic id2 a b c d hw he1 he2 ha hb hc hd hne,
    edge_count_swapped he1 he2 hne _ _, ?_, ?_⟩
  · intro v
    unfold out_degree
    cases hv : lookup_by_left g.nodeMap v with
    | none => rfl
    | some iv => exact count_out_swapped he1 he2 hne iv
  · intro v
    unfold in_degree
    cases hv : lookup_by_left g.nodeMap v with
    | none => rfl
    | some iv => exact count_in_swapped he1 he2 hne iv

theorem c9_swap_preserves_counts_witness :
    MapWF (from_edges [(0, 1), (1, 2)]) ∧
      edge_endpoints (from_edges [(0, 1), (1, 2)]) 0 = some (0, 1) ∧
      edge_endpoints (from_edges [(0, 1), (1, 2)]) 1 = some (1, 2) ∧
      (0 : Nat) ≠ 1 ∧
      (∃ new1 new2 g',
        swap_edges 0 1 (from_edges [(0, 1), (1, 2)]) = some ((new1, new2), g') ∧
        edge_count g' = edge_count (from_edges [(0, 1), (1, 2)]) ∧
        (∀ v, out_degree g' v = out_degree (from_edges [(0, 1), (1, 2)]) v) ∧
        (∀ v, in_degree g' v = in_degree (from_edges [(0, 1), (1, 2)]) v)) :=
  ⟨by decide, by decide, by decide, by decide,
    c9_swap_preserves_counts (from_edges [(0, 1), (1, 2)]) 0 1 0 1 1 2
      (by decide) (by decide) (by decide) (by decide)⟩

/-- C3: the TwoWay Exchange runs the single-edge Exchange on the two forward
edges, then on the two backward edges, and cross-combines the four results:
for matched pairs (a, b)/(b, a) and (c, d)/(d, c) the first output is the
matched bidirectional pair between a and d and the second the matched pair
between c and b, each combining the forward result of one original pair with
the backward result of the other. -/
theorem c3_twoway_swap_matched (g : GameGraph) (x y : TwoWay) (a b c d : NodeID)
    (hw : MapWF g)
    (hxf : edge_endpoints g x.idx1 = some (a, b))
    (hxb : edge_endpoints g x.idx2 = some (b, a))
    (hyf : edge_endpoints g y.idx1 = some (c, d))
    (hyb : edge_endpoints g y.idx2 = some (d, c))
    (h12 : x.idx1 ≠ y.idx1) (h34 : x.idx2 ≠ y.idx2)
    (h31 : x.idx2 ≠ x.idx1) (h32 : x.idx2 ≠ y.idx1)
    (h41 : y.idx2 ≠ x.idx1) (h42 : y.idx2 ≠ y.idx1) :
    ∃ t1 t2 g', TwoWay.swap x y g = some ((t1, t2), g') ∧
      t1 = ⟨y.idx1, x.idx2⟩ ∧ t2 = ⟨x.idx1, y.idx2⟩ ∧
      edge_endpoints g' t1.idx1 = some (a, d) ∧
      edge_endpoints g' t1.idx2 = some (d, a) ∧
      edge_endpoints g' t2.idx1 = some (c, b) ∧
      edge_endpoints g' t2.idx2 = some (b, c) := by
  obtain ⟨p1a, p1b, hf1, ha, hb⟩ := edge_endpoints_elim hw.1 hxf
  obtain ⟨q1a, q1b, hb1, hu, hv⟩ := edge_endpoints_elim hw.1 hxb
  obtain ⟨p2a, p2b, hf2, hc, hd⟩ := edge_endpoints_elim hw.1 hyf
  obtain ⟨q2a, q2b, hb2, hww, hz⟩ := edge_endpoints_elim hw.1 hyb
  have hl1 : x.idx1 < g.edges.length := getD_none_some_lt hf1
  have hl2 : y.idx1 < g.edges.length := getD_none_some_lt hf2
  have hl3 : x.idx2 < g.edges.length := getD_none_some_lt hb1
  have hl4 : y.idx2 < g.edges.length := getD_none_some_lt hb2
  refine ⟨⟨y.idx1, x.idx2⟩, ⟨x.idx1, y.idx2⟩, _,
    twoway_swap_eq g x y p1a p1b p2a p2b q1a q1b q2a q2b a b c d b a d c hw
      hf1 hf2 hb1 hb2 ha hb hc hd hu hv hww hz h12 h34 h31 h32 h41 h42,
    rfl, rfl, ?_, ?_, ?_, ?_⟩
  · refine edge_endpoints_intro hw.1 ?_ ha hd
    rw [getD_set_of_ne _ _ h32, getD_set_of_ne _ _ h42,
      getD_set_of_ne _ _ h12, getD_set_self _ _ hl2]
  · refine edge_endpoints_intro hw.1 ?_ hww hv
    rw [getD_set_self _ _ (by simpa [List.length_set] using hl3)]
  · refine edge_endpoints_intro hw.1 ?_ hc hb
    rw [getD_set_of_ne _ _ h31, getD_set_of_ne _ _ h41,
      getD_set_self _ _ (by simpa [List.length_set] using hl1)]
  · refine edge_endpoints_intro hw.1 ?_ hu hz
    rw [getD_set_of_ne _ _ h34,
      getD_set_self _ _ (by simpa [List.length_set] using hl4)]

theorem c3_twoway_swap_matched_witness :
    MapWF (from_edges [(4, 6), (6, 4), (8, 10), (10, 8)]) ∧
      edge_endpoints (from_edges [(4, 6), (6, 4), (8, 10), (10, 8)]) 0 = some (4, 6) ∧
      edge_endpoints (from_edges [(4, 6), (6, 4), (8, 10), (10, 8)]) 1 = some (6, 4) ∧
      edge_endpoints (from_edges [(4, 6), (6, 4), (8, 10), (10, 8)]) 2 = some (8, 10) ∧
      edge_endpoints (from_edges [(4, 6), (6, 4), (8, 10), (10, 8)]) 3 = some (10, 8) ∧
      (∃ t1 t2 g', TwoWay.swap ⟨0, 1⟩ ⟨2, 3⟩
          (from_edges [(4, 6), (6, 4), (8, 10), (10, 8)]) = some ((t1, t2), g') ∧
        t1 = ⟨2, 1⟩ ∧ t2 = ⟨0, 3⟩ ∧
        edge_endpoints g' t1.idx1 = some (4, 10) ∧
        edge_endpoints g' t1.idx2 = some (10, 4) ∧
        edge_endpoints g' t2.idx1 = some (8, 6) ∧
        edge_endpoints g' t2.idx2 = some (6, 8)) :=
  ⟨by decide, by decide, by decide, by decide, by decide,
    c3_twoway_swap_matched (from_edges [(4, 6), (6, 4), (8, 10), (10, 8)])
      ⟨0, 1⟩ ⟨2, 3⟩ 4 6 8 10 (by decide) (by decide) (by decide) (by decide)
      (by decide) (by decide) (by decide) (by decide) (by decide) (by decide)
      (by decide)⟩

/-- C4: the Exchange is self-inverse: applying Exchange to the pair of
Connections returned by a prior Exchange of two distinct live Connections
yields Connections whose endpoint configurations equal the original two, both
for OneWay and for TwoWay (including connections sharing endpoints, since the
endpoint NodeIDs are unconstrained). -/
theorem c4_exchange_self_inverse :
    (∀ (g : GameGraph) (x y n1 n2 : OneWay) (g1 : GameGraph),
      MapWF g → OneWay.swap x y g = some ((n1, n2), g1) →
      ∃ p1 p2 g2, OneWay.swap n1 n2 g1 = some ((p1, p2), g2) ∧
        edge_endpoints g2 p1.idx = edge_endpoints g x.idx ∧
        edge_endpoints g2 p2.idx = edge_endpoints g y.idx) ∧
    (∀ (g : GameGraph) (x y n1 n2 : TwoWay) (g1 : GameGraph),
      MapWF g → x.idx1 ≠ y.idx1 → x.idx2 ≠ x.idx1 → x.idx2 ≠ y.idx1 →
      y.idx2 ≠ x.idx1 → y.idx2 ≠ y.idx1 →
      TwoWay.swap x y g = some ((n1, n2), g1) →
      ∃ t1 t2 g2, TwoWay.swap n1 n2 g1 = some ((t1, t2), g2) ∧
        edge_endpoints g2 t1.idx1 = edge_endpoints g x.idx1 ∧
        edge_endpoints g2 t1.idx2 = edge_endpoints g x.idx2 ∧
        edge_endpoints g2 t2.idx1 = edge_endpoints g y.idx1 ∧
        edge_endpoints g2 t2.idx2 = edge_endpoints g y.idx2) := by
  constructor
  · intro g x y n1 n2 g1 hw hswap
    obtain ⟨ia, ib, ic, id2, a, b, c, d, hne, he1, he2, ha, hb, hc, hd, hn1, hn2, hg1⟩ :=
      oneway_swap_some_inv hw hswap
    have hback : OneWay.swap n1 n2 g1 = some ((⟨x.idx⟩, ⟨y.idx⟩), g) := by
      subst hn1 hn2 hg1
      unfold OneWay.swap
      have hr := swap_edges_rollback g x.idx y.idx ia ib ic id2 a b c d hw
        he1 he2 ha hb hc hd hne
      simp only [hr]
    exact ⟨⟨x.idx⟩, ⟨y.idx⟩, g, hback, rfl, rfl⟩
  · intro g x y n1 n2 g1 hw e11 e31 e32 e41 e42 hswap
    have hback := twoway_back hw e11 e31 e32 e41 e42 hswap
    exact ⟨x, y, g, hback, rfl, rfl, rfl, rfl⟩

theorem c4_exchange_self_inverse_witness :
    (∃ n1 n2 g1, OneWay.swap ⟨0⟩ ⟨1⟩ (from_edges [(4, 6), (8, 10)]) =
        some ((n1, n2), g1) ∧
      ∃ p1 p2 g2, OneWay.swap n1 n2 g1 = some ((p1, p2), g2) ∧
        edge_endpoints g2 p1.idx =
          edge_endpoints (from_edges [(4, 6), (8, 10)]) 0 ∧
        edge_endpoints g2 p2.idx =
          edge_endpoints (from_edges [(4, 6), (8, 10)]) 1) ∧
    (∃ m1 m2 h1, TwoWay.swap ⟨0, 1⟩ ⟨2, 3⟩
        (from_edges [(4, 6), (6, 4), (8, 10), (10, 8)]) = some ((m1, m2), h1) ∧
      ∃ t1 t2 h2, TwoWay.swap m1 m2 h1 = some ((t1, t2), h2) ∧
        edge_endpoints h2 t1.idx1 =
          edge_endpoints (from_edges [(4, 6), (6, 4), (8, 10), (10, 8)]) 0 ∧
        edge_endpoints h2 t1.idx2 =
          edge_endpoints (from_edges [(4, 6), (6, 4), (8, 10), (10, 8)]) 1 ∧
        edge_endpoints h2 t2.idx1 =
          edge_endpoints (from_edges [(4, 6), (6, 4), (8, 10), (10, 8)]) 2 ∧
        edge_endpoints h2 t2.idx2 =
          edge_endpoints (from_edges [(4, 6), (6, 4), (8, 10), (10, 8)]) 3) := by
  constructor
  · refine ⟨⟨1⟩, ⟨0⟩, _, rfl, ?_⟩
    exact c4_exchange_self_inverse.1 (from_edges [(4, 6), (8, 10)])
      ⟨0⟩ ⟨1⟩ ⟨1⟩ ⟨0⟩ _ (by decide) rfl
  · refine ⟨⟨2, 1⟩, ⟨0, 3⟩, _, rfl, ?_⟩
    exact c4_exchange_self_inverse.2 (from_edges [(4, 6), (6, 4), (8, 10), (10, 8)])
      ⟨0, 1⟩ ⟨2, 3⟩ ⟨2, 1⟩ ⟨0, 3⟩ _ (by decide) (by decide) (by decide)
      (by decide) (by decide) (by decide) rfl

/-- C5: in an engine iteration whose speculative Exchange leaves the graph
uncompletable, the rollback Exchange on the two new Connections restores the
graph to its exact pre-iteration state — the same structure, edge slots and
LIFO free list, hence the original EdgeRef identities — and the candidate
pool is returned untouched, so every pool element still denotes the same live
edges with their original endpoints. -/
theorem c5_rollback_restores_state :
    (∀ (g g1 : GameGraph) (pool : List OneWay) (rng rng1 : StdRng)
        (x y n1 n2 : OneWay) (err : Error),
      MapWF g → pick_random_edges pool rng = (some (x, y), rng1) →
      OneWay.swap x y g = some ((n1, n2), g1) →
      game_beatable g1 = Except.error err →
      try_swap_edges g pool rng = some (g, pool, rng1)) ∧
    (∀ (g g1 : GameGraph) (pool : List TwoWay) (rng rng1 : StdRng)
        (x y n1 n2 : TwoWay) (err : Error),
      MapWF g → x.idx1 ≠ y.idx1 → x.idx2 ≠ x.idx1 → x.idx2 ≠ y.idx1 →
      y.idx2 ≠ x.idx1 → y.idx2 ≠ y.idx1 →
      pick_random_edges pool rng = (some (x, y), rng1) →
      TwoWay.swap x y g = some ((n1, n2), g1) →
      game_beatable g1 = Except.error err →
      try_swap_edges g pool rng = some (g, pool, rng1)) :=
  ⟨fun _ _ _ _ _ _ _ _ _ _ hw hpick hswap hbad =>
      try_swap_rollback_ow hw hpick hswap hbad,
    fun _ _ _ _ _ _ _ _ _ _ hw e11 e31 e32 e41 e42 hpick hswap hbad =>
      try_swap_rollback_tw hw e11 e31 e32 e41 e42 hpick hswap hbad⟩

theorem c5_rollback_restores_state_witness :
    MapWF (from_edges [(0, 1), (1, 2)]) ∧
      pick_random_edges [(⟨0⟩ : OneWay), ⟨1⟩] [0] =
        (some ((⟨0⟩ : OneWay), (⟨1⟩ : OneWay)), ([] : StdRng)) ∧
      OneWay.swap ⟨0⟩ ⟨1⟩ (from_edges [(0, 1), (1, 2)]) =
        some ((⟨1⟩, ⟨0⟩), GameGraph.mk [0, 1, 2] [(0, 0), (1, 1), (2, 2)]
          [some (1, 1), some (0, 2)] []) ∧
      game_beatable (GameGraph.mk [0, 1, 2] [(0, 0), (1, 1), (2, 2)]
          [some (1, 1), some (0, 2)] []) =
        Except.error (Error.GameUnbeatable [0, 1]) ∧
      try_swap_edges (from_edges [(0, 1), (1, 2)]) [(⟨0⟩ : OneWay), ⟨1⟩] [0] =
        some (from_edges [(0, 1), (1, 2)], [(⟨0⟩ : OneWay), ⟨1⟩], []) :=
  ⟨by decide, by decide, by decide, by decide,
    c5_rollback_restores_state.1 (from_edges [(0, 1), (1, 2)])
      (GameGraph.mk [0, 1, 2] [(0, 0), (1, 1), (2, 2)]
        [some (1, 1), some (0, 2)] [])
      [⟨0⟩, ⟨1⟩] [0] [] ⟨0⟩ ⟨1⟩ ⟨1⟩ ⟨0⟩ (Error.GameUnbeatable [0, 1])
      (by decide) (by decide) (by decide) (by decide)⟩

/-- C6: when the initial graph is not completable, `build_game` returns the
Unbeatable error carrying exactly the root-SCC NodeIDs, before any iteration
or mutation: the error is produced by the precondition check alone. -/
theorem c6_build_precondition (w : GameWorld) (rng : StdRng) (n : Nat)
    (ids : List NodeID)
    (h : game_beatable w.graph = Except.error (Error.GameUnbeatable ids)) :
    build_game w rng n = some (Except.error (Error.GameUnbeatable ids)) ∧
      ids = root_scc_node_ids w.graph := by
  constructor
  · unfold build_game
    rw [h]
  · unfold game_beatable at h
    by_cases hc : (condensed_roots w.graph).length = 1
    · rw [if_pos hc] at h
      simp at h
    · rw [if_neg hc] at h
      simp only [Except.error.injEq, Error.GameUnbeatable.injEq] at h
      exact h.symm

theorem c6_build_precondition_witness :
    game_beatable (GameWorld.mk (from_edges [(0, 1), (2, 1)]) [] []).graph =
        Except.error (Error.GameUnbeatable [0, 2]) ∧
      build_game (GameWorld.mk (from_edges [(0, 1), (2, 1)]) [] []) [3] 5 =
        some (Except.error (Error.GameUnbeatable [0, 2])) ∧
      ([0, 2] : List NodeID) =
        root_scc_node_ids (GameWorld.mk (from_edges [(0, 1), (2, 1)]) [] []).graph :=
  ⟨by decide,
    c6_build_precondition (GameWorld.mk (from_edges [(0, 1), (2, 1)]) [] [])
      [3] 5 [0, 2] (by decide)⟩

/-- C7: whenever `build_game` returns Ok, the final graph is completable, its
edge count equals the initial edge count, and both candidate pools have their
initial cardinalities, for every iteration count and every random stream. -/
theorem c7_build_invariants (w w' : GameWorld) (rng rng' : StdRng) (n : Nat)
    (hw : MapWF w.graph) (how : w.swappable_one_ways.Nodup)
    (htw : w.swappable_two_ways.Nodup)
    (hfl : (tw_flat w.swappable_two_ways).Nodup)
    (h : build_game w rng n = some (Except.ok (w', rng'))) :
    game_beatable w'.graph = Except.ok () ∧
      edge_count w'.graph = edge_count w.graph ∧
      w'.swappable_one_ways.length = w.swappable_one_ways.length ∧
      w'.swappable_two_ways.length = w.swappable_two_ways.length := by
  obtain ⟨hb, hl⟩ := build_game_ok_inv h
  obtain ⟨-, hb', hc, ho, ht, -, -, -⟩ :=
    build_loop_inv n w.graph w.swappable_one_ways w.swappable_two_ways rng
      w'.graph w'.swappable_one_ways w'.swappable_two_ways rng' hw hb how htw hfl hl
  exact ⟨hb', hc, ho, ht⟩

theorem c7_build_invariants_witness :
    MapWF (GameWorld.mk (from_edges [(0, 1)]) [⟨0⟩] []).graph ∧
      (GameWorld.mk (from_edges [(0, 1)]) [⟨0⟩] []).swappable_one_ways.Nodup ∧
      (GameWorld.mk (from_edges [(0, 1)]) [⟨0⟩] []).swappable_two_ways.Nodup ∧
      (tw_flat (GameWorld.mk (from_edges [(0, 1)]) [⟨0⟩] []).swappable_two_ways).Nodup ∧
      build_game (GameWorld.mk (from_edges [(0, 1)]) [⟨0⟩] []) [] 0 =
        some (Except.ok (GameWorld.mk (from_edges [(0, 1)]) [⟨0⟩] [], [])) ∧
      (game_beatable (GameWorld.mk (from_edges [(0, 1)]) [⟨0⟩] []).graph =
          Except.ok () ∧
        edge_count (GameWorld.mk (from_edges [(0, 1)]) [⟨0⟩] []).graph =
          edge_count (GameWorld.mk (from_edges [(0, 1)]) [⟨0⟩] []).graph ∧
        (GameWorld.mk (from_edges [(0, 1)]) [⟨0⟩] []).swappable_one_ways.length =
          (GameWorld.mk (from_edges [(0, 1)]) [⟨0⟩] []).swappable_one_ways.length ∧
        (GameWorld.mk (from_edges [(0, 1)]) [⟨0⟩] []).swappable_two_ways.length =
          (GameWorld.mk (from_edges [(0, 1)]) [⟨0⟩] []).swappable_two_ways.length) :=
  ⟨by decide, by decide, by decide, by decide, by decide,
    c7_build_invariants (GameWorld.mk (from_edges [(0, 1)]) [⟨0⟩] [])
      (GameWorld.mk (from_edges [(0, 1)]) [⟨0⟩] []) [] [] 0
      (by decide) (by decide) (by decide) (by decide) (by decide)⟩

/-- C8: `build_game` is deterministic — identical worlds, identical random
streams and identical iteration counts produce identical results — and each
iteration consumes the stream in the fixed order: one boolean draw first,
then the iteration body (whose sampling draw happens inside
`pick_random_edges` when the chosen pool has at least two members). -/
theorem c8_build_deterministic :
    (∀ (w1 w2 : GameWorld) (r1 r2 : StdRng) (n1 n2 : Nat),
      w1 = w2 → r1 = r2 → n1 = n2 →
      build_game w1 r1 n1 = build_game w2 r2 n2) ∧
    (∀ (g : GameGraph) (ow : List OneWay) (tw : List TwoWay)
        (rng : StdRng) (n : Nat),
      build_loop g ow tw rng (n + 1) =
        (match gen_bool rng with
          | (true, rng') =>
            match try_swap_edges g ow rng' with
            | none => none
            | some (g', ow', rng'') => build_loop g' ow' tw rng'' n
          | (false, rng') =>
            match try_swap_edges g tw rng' with
            | none => none
            | some (g', tw', rng'') => build_loop g' ow tw' rng'' n)) := by
  constructor
  · intro w1 w2 r1 r2 n1 n2 h1 h2 h3
    rw [h1, h2, h3]
  · intro g ow tw rng n
    rfl

theorem c8_build_deterministic_witness :
    build_game (GameWorld.mk (from_edges [(0, 1)]) [⟨0⟩] []) [0, 1] 2 =
      build_game (GameWorld.mk (from_edges [(0, 1)]) [⟨0⟩] []) [0, 1] 2 :=
  c8_build_deterministic.1 (GameWorld.mk (from_edges [(0, 1)]) [⟨0⟩] [])
    (GameWorld.mk (from_edges [(0, 1)]) [⟨0⟩] []) [0, 1] [0, 1] 2 2 rfl rfl rfl

/-- C10: the empty graph has an empty condensation with zero roots, so
`game_beatable` returns the Unbeatable error with an empty NodeID list, and
`build_game` on a world with the empty graph fails at the precondition check
for every pool contents, random stream and iteration count. -/
theorem c10_empty_graph_unbeatable :
    game_beatable (from_edges []) = Except.error (Error.GameUnbeatable []) ∧
    ∀ (ow : List OneWay) (tw : List TwoWay) (rng : StdRng) (n : Nat),
      build_game (GameWorld.mk (from_edges []) ow tw) rng n =
        some (Except.error (Error.GameUnbeatable [])) := by
  have h : game_beatable (from_edges []) = Except.error (Error.GameUnbeatable []) := by
    rfl
  refine ⟨h, ?_⟩
  intro ow tw rng n
  unfold build_game
  rw [show (GameWorld.mk (from_edges []) ow tw).graph = from_edges [] from rfl, h]
